import Mathlib

/-
Verification development for the write path core of the RocksDB fork:
a shallow embedding of `db_impl_write.cc` (the group-commit write
coordinator) and `util/concurrent_task_limiter_impl.cc`, with theorems
checking the natural-language specification against this embedding.
-/

namespace RocksDBWrite

/-! ## Status values (`rocksdb::Status` / `rocksdb::IOStatus`)

Only the pieces of `Status` the write path inspects are modelled: the code,
the `kIOFenced` subcode (carried by `IOStatus`), and the message string. -/

inductive StatusCode where
  | Ok
  | Corruption
  | InvalidArgument
  | NotSupported
  | Incomplete
  | Busy
  | IOError
  | ShutdownInProgress
  deriving DecidableEq

structure Status where
  code : StatusCode
  fenced : Bool
  msg : String
  deriving DecidableEq

def Status.okS : Status := ⟨StatusCode.Ok, false, ""⟩

def Status.corruption (m : String) : Status := ⟨StatusCode.Corruption, false, m⟩

def Status.invalidArgument (m : String) : Status := ⟨StatusCode.InvalidArgument, false, m⟩

def Status.notSupported (m : String) : Status := ⟨StatusCode.NotSupported, false, m⟩

def Status.incomplete (m : String) : Status := ⟨StatusCode.Incomplete, false, m⟩

def Status.busyS : Status := ⟨StatusCode.Busy, false, ""⟩

def Status.ioError (m : String) : Status := ⟨StatusCode.IOError, false, m⟩

def Status.ioFenced (m : String) : Status := ⟨StatusCode.IOError, true, m⟩

def Status.ok (s : Status) : Bool := s.code == StatusCode.Ok

def Status.isBusy (s : Status) : Bool := s.code == StatusCode.Busy

def Status.isIncomplete (s : Status) : Bool := s.code == StatusCode.Incomplete

def Status.isIOFenced (s : Status) : Bool := s.fenced

/-- Rendering of `Status::ToString()` as far as the model needs it: a
non-empty description distinct from a bare message (used where the code
builds `Status::Incomplete(error_handler_.GetBGError().ToString())`). -/
def Status.describe (s : Status) : String :=
  match s.code with
  | StatusCode.Ok => "OK"
  | StatusCode.Corruption => "Corruption: " ++ s.msg
  | StatusCode.InvalidArgument => "Invalid argument: " ++ s.msg
  | StatusCode.NotSupported => "Not implemented: " ++ s.msg
  | StatusCode.Incomplete => "Result incomplete: " ++ s.msg
  | StatusCode.Busy => "Resource busy: " ++ s.msg
  | StatusCode.IOError => "IO error: " ++ s.msg
  | StatusCode.ShutdownInProgress => "Shutdown in progress: " ++ s.msg

/-! ## Write batches and writers -/

/-- A write batch: the 8-byte header base sequence, the ordered list of
mutation records (abstracted to opaque numbers; `Count` is the length),
the WAL termination point (`none` when `is_cleared()`, `some k` when only
the first `k` records go to the WAL), and the latest-persistent-state
marker used by `MergeBatch` for recovery caching. -/
structure WriteBatch where
  seq : Nat
  entries : List Nat
  walTermPoint : Option Nat
  latestPersistentState : Bool
  deriving DecidableEq

/-- `WriteBatchInternal::Count`. -/
def WriteBatch.count (b : WriteBatch) : Nat := b.entries.length

/-- `WriteBatchInternal::SetSequence`. -/
def WriteBatch.setSeq (b : WriteBatch) (s : Nat) : WriteBatch :=
  { b with seq := s }

/-- Records contributed to the WAL by `WriteBatchInternal::Append(dst, src,
wal_only = true)`: all entries when the termination point is cleared, the
prefix up to it otherwise. -/
def WriteBatch.walContents (b : WriteBatch) : List Nat :=
  match b.walTermPoint with
  | none => b.entries
  | some k => b.entries.take k

/-- A `WriteThread::Writer` as the write path reads it: its batch, the
outcome of its pre-commit callback (`CheckCallback` / `CallbackFailed`),
the `disable_memtable` flag, the sub-batch count `batch_cnt`, and its
optional pre-release callback, modelled as a function from the assigned
sequence to the status it returns. -/
structure Writer where
  batch : WriteBatch
  hasCallback : Bool
  cbStatus : Status
  disableMemtable : Bool
  batchCnt : Nat
  preRelease : Option (Nat → Status)

instance : Inhabited Writer :=
  ⟨⟨⟨0, [], none, false⟩, false, Status.okS, false, 0, none⟩⟩

/-- `WriteThread::Writer::CallbackFailed()`. -/
def Writer.callbackFailed (w : Writer) : Bool :=
  w.hasCallback && !w.cbStatus.ok

/-- `WriteThread::Writer::ShouldWriteToMemtable()` (the writer status is OK
up to the memtable phase on this path). -/
def Writer.shouldWriteToMemtable (w : Writer) : Bool :=
  !w.callbackFailed && !w.disableMemtable

/-- Sequence numbers one writer consumes in the default path: its
`batch_cnt` under seq-per-batch, otherwise its record count when it writes
to the memtable and nothing otherwise (`WriteImpl`, the advance of
`next_sequence`). -/
def Writer.consumed (spb : Bool) (w : Writer) : Nat :=
  if spb then w.batchCnt
  else if w.shouldWriteToMemtable then w.batch.count else 0

def leaderCallbackFailed (g : List Writer) : Bool :=
  match g with
  | [] => false
  | w :: _ => w.callbackFailed

/-- `seq_inc` of `WriteImpl`: `valid_batches` under seq-per-batch, else
`total_count`, both summed over writers whose pre-commit callback did not
fail. -/
def groupSeqInc (spb : Bool) (g : List Writer) : Nat :=
  (g.map fun w => if w.callbackFailed then 0 else w.consumed spb).sum

/-- Sequence numbers consumed by the first `i` writers of the group
(failed-callback writers consume nothing). -/
def consumedBefore (spb : Bool) (g : List Writer) (i : Nat) : Nat :=
  ((g.take i).map fun w => if w.callbackFailed then 0 else w.consumed spb).sum

/-! ## Concurrent task limiter (`util/concurrent_task_limiter_impl.cc`) -/

/-- The two atomic counters of `ConcurrentTaskLimiterImpl`. -/
structure TaskLimiterState where
  maxOutstandingTasks : Int
  outstandingTasks : Int
  deriving DecidableEq

/-- State right after `ConcurrentTaskLimiterImpl(name, limit)`. -/
def limiterInit (limit : Int) : TaskLimiterState := ⟨limit, 0⟩

/-- `GetToken(force)`: the CAS retry loop rendered sequentially (without
interference the first compare-exchange succeeds). Returns whether a token
was handed out together with the new counter state. -/
def GetToken (s : TaskLimiterState) (force : Bool) : Bool × TaskLimiterState :=
  if force || s.maxOutstandingTasks < 0 ||
      s.outstandingTasks < s.maxOutstandingTasks then
    (true, ⟨s.maxOutstandingTasks, s.outstandingTasks + 1⟩)
  else
    (false, s)

/-- `TaskLimiterToken::~TaskLimiterToken()`: `--limiter_->outstanding_tasks_`. -/
def destroyToken (s : TaskLimiterState) : TaskLimiterState :=
  ⟨s.maxOutstandingTasks, s.outstandingTasks - 1⟩

/-- `SetMaxOutstandingTask(limit)`. -/
def SetMaxOutstandingTask (s : TaskLimiterState) (n : Int) : TaskLimiterState :=
  ⟨n, s.outstandingTasks⟩

/-- `ResetMaxOutstandingTask()`. -/
def ResetMaxOutstandingTask (s : TaskLimiterState) : TaskLimiterState :=
  SetMaxOutstandingTask s (-1)

/-- An interleaving of limiter operations: token requests, token
destructions and cap updates. -/
inductive LimiterOp where
  | getTok (force : Bool)
  | dropTok
  | setMax (n : Int)
  | resetMax
  deriving DecidableEq

/-- Limiter state paired with the number of live (not yet destroyed)
tokens. -/
structure LimiterRun where
  st : TaskLimiterState
  live : Nat
  deriving DecidableEq

def limiterStep (r : LimiterRun) : LimiterOp → LimiterRun
  | LimiterOp.getTok f =>
      let p := GetToken r.st f
      ⟨p.2, if p.1 then r.live + 1 else r.live⟩
  | LimiterOp.dropTok => ⟨destroyToken r.st, r.live - 1⟩
  | LimiterOp.setMax n => ⟨SetMaxOutstandingTask r.st n, r.live⟩
  | LimiterOp.resetMax => ⟨ResetMaxOutstandingTask r.st, r.live⟩

def limiterRunOps (r : LimiterRun) (ops : List LimiterOp) : LimiterRun :=
  ops.foldl limiterStep r

def limiterStart (cap : Int) : LimiterRun := ⟨limiterInit cap, 0⟩

/-- Well-formed operation sequences: a token is destroyed only while it is
live (the limiter outlives every token and each token is dropped once). -/
def limiterWF (r : LimiterRun) : List LimiterOp → Bool
  | [] => true
  | op :: rest =>
      (op != LimiterOp.dropTok || decide (0 < r.live)) &&
        limiterWF (limiterStep r op) rest

/-! ## Batch merging and the group WAL append (`MergeBatch`, `WriteToWAL`) -/

/-- Whether the WAL append reuses the leader's batch in place or goes
through the scratch batch (`tmp_batch_`). -/
inductive MergedKind where
  | inPlace
  | scratch
  deriving DecidableEq

structure MergedResult where
  kind : MergedKind
  batch : WriteBatch
  writeWithWal : Nat
  deriving DecidableEq

def emptyBatch : WriteBatch := ⟨0, [], none, false⟩

/-- `DBImpl::MergeBatch`: a single-writer group whose leader's callback did
not fail and whose batch has a cleared WAL termination point is appended in
place; otherwise the contents (up to each termination point) of every
writer whose callback did not fail are flattened into the scratch batch in
group order. -/
def MergeBatch (g : List Writer) : MergedResult :=
  match g with
  | [] => ⟨MergedKind.scratch, emptyBatch, 0⟩
  | leader :: rest =>
      if rest.isEmpty && !leader.callbackFailed &&
          leader.batch.walTermPoint.isNone then
        ⟨MergedKind.inPlace, leader.batch, 1⟩
      else
        let ok := (leader :: rest).filter fun w => !w.callbackFailed
        ⟨MergedKind.scratch,
          { emptyBatch with entries := ok.flatMap fun w => w.batch.walContents },
          ok.length⟩

structure WalAppendResult where
  kind : MergedKind
  appended : WriteBatch
  writeWithWal : Nat
  deriving DecidableEq

/-- The group variant of `DBImpl::WriteToWAL`: merge the group's batches,
stamp the merged batch with the group's base sequence
(`WriteBatchInternal::SetSequence`) and hand it to the log writer. -/
def writeToWALGroup (g : List Writer) (base : Nat) : WalAppendResult :=
  let m := MergeBatch g
  ⟨m.kind, m.batch.setSeq base, m.writeWithWal⟩

/-! ## Events of one write: WAL append, pre-release callbacks, memtable
applies.  A trace is the order in which the leader's straight-line code
(and, for parallel/unordered memtable writers, the writers it wakes, which
by the join-batch-group contract of §4.2 run only after being launched or
released) performs these actions. -/

inductive Event where
  | walAppend (b : WriteBatch)
  | preRelease (gidx : Nat) (seq : Nat)
  | memtableApply (gidx : Nat)
  deriving DecidableEq

def Event.phase : Event → Nat
  | Event.walAppend _ => 0
  | Event.preRelease _ _ => 1
  | Event.memtableApply _ => 2

def Event.isWal : Event → Bool
  | Event.walAppend _ => true
  | _ => false

/-- Ordering expected of a well-formed trace: phases never go backwards
(every WAL append precedes every pre-release callback, which precedes every
memtable apply) and pre-release callbacks fire in ascending group order. -/
def eventOrd : Event → Event → Prop
  | Event.preRelease i _, Event.preRelease j _ => i < j
  | a, b => a.phase ≤ b.phase

instance : DecidableRel eventOrd := by
  intro a b
  cases a <;> cases b <;> simp only [eventOrd] <;> infer_instance

/-- Memtable-apply events of the group, one per writer that writes to the
memtable, in group order (`WriteBatchInternal::InsertInto` over the group,
or each parallel writer inserting its own batch). -/
def memApplyEvents (g : List Writer) : List Event :=
  (List.range g.length).filterMap fun i =>
    match g[i]? with
    | some w =>
        if w.shouldWriteToMemtable then some (Event.memtableApply i) else none
    | none => none

/-! ## The sequence-assignment / pre-release loop of the default path
(`WriteImpl`, the loop after the WAL append). -/

/-- The loop body: writers with failed pre-commit callbacks are skipped
(and keep no sequence); every other writer is assigned `next_sequence`,
its pre-release callback (if any) is invoked with that sequence, a failing
callback sets the status and breaks out (later writers stay unassigned),
and `next_sequence` advances by the writer's consumption.  Returns the
per-writer assignments, the callback invocation events, and the status. -/
def assignLoop (spb : Bool) (gidx : Nat) (next : Nat) :
    List Writer → List (Option Nat) × List Event × Status
  | [] => ([], [], Status.okS)
  | w :: ws =>
      if w.callbackFailed then
        let r := assignLoop spb (gidx + 1) next ws
        (none :: r.1, r.2.1, r.2.2)
      else
        match w.preRelease with
        | some f =>
            let cbs := f next
            if cbs.ok then
              let r := assignLoop spb (gidx + 1) (next + w.consumed spb) ws
              (some next :: r.1, Event.preRelease gidx next :: r.2.1, r.2.2)
            else
              (some next :: ws.map fun _ => none,
                [Event.preRelease gidx next], cbs)
        | none =>
            let r := assignLoop spb (gidx + 1) (next + w.consumed spb) ws
            (some next :: r.1, r.2.1, r.2.2)

/-- No pre-release callback of the group fails (at any sequence). -/
def NoPreReleaseFailure (g : List Writer) : Prop :=
  ∀ w ∈ g, ∀ f, w.preRelease = some f → ∀ n, (f n).ok = true

/-! ## Error checks (`WriteStatusCheck`, `IOStatusCheck`) -/

/-- Condition under which `DBImpl::WriteStatusCheck` records a background
error through the error handler. -/
def writeCheckRecords (paranoid : Bool) (s : Status) : Bool :=
  paranoid && !s.ok && !s.isBusy && !s.isIncomplete

/-- Condition under which `DBImpl::IOStatusCheck` records a background
error through the error handler. -/
def ioCheckRecords (paranoid : Bool) (s : Status) : Bool :=
  (paranoid && !s.ok && !s.isBusy && !s.isIncomplete) || s.isIOFenced

/-! ## The default write path (`WriteImpl`, non-pipelined, non-unordered) -/

structure DBConfig where
  twoWriteQueues : Bool
  enablePipelinedWrite : Bool
  seqPerBatch : Bool
  unorderedWrite : Bool
  allowConcurrentMemtableWrite : Bool
  paranoidChecks : Bool
  deriving DecidableEq

structure WriteOptionsM where
  sync : Bool
  disableWAL : Bool
  noSlowdown : Bool
  lowPri : Bool
  deriving DecidableEq

/-- Inputs of one default-path write group: the configuration, the leader's
write options, the group (leader first), the `PreprocessWrite` status, the
published `LastSequence` (single-queue base), the `LastAllocatedSequence`
counter (two-queue base), and the externally determined outcomes of the
WAL file append/sync (`io_s`) and of the rare two-queue
`FlushWAL`/`SyncWAL` call. -/
structure DefaultInput where
  cfg : DBConfig
  opts : WriteOptionsM
  group : List Writer
  preStatus : Status
  lastSeq0 : Nat
  lastAlloc0 : Nat
  walIO : Status
  syncRes : Status

/-- `last_sequence` right after the WAL phase: the pre-WAL `LastSequence`
in single-queue mode, the fetch-and-add result (the pre-add counter) in
two-queue mode.  Groups whose preprocess failed never reach this value. -/
def dwLastBefore (inp : DefaultInput) : Nat :=
  if inp.cfg.twoWriteQueues then inp.lastAlloc0 else inp.lastSeq0

def dwBase (inp : DefaultInput) : Nat := dwLastBefore inp + 1

def dwInc (inp : DefaultInput) : Nat :=
  groupSeqInc inp.cfg.seqPerBatch inp.group

/-- WAL append performed by the group (lines guarded by
`status.ok() && !write_options.disableWAL`). -/
def dwWalEvents (inp : DefaultInput) : List Event :=
  if inp.preStatus.ok && !inp.opts.disableWAL then
    [Event.walAppend (writeToWALGroup inp.group (dwBase inp)).appended]
  else []

/-- `io_s` after the WAL phase. -/
def dwIo (inp : DefaultInput) : Status :=
  if inp.preStatus.ok && !inp.opts.disableWAL then inp.walIO else Status.okS

/-- The value of `LastAllocatedSequence` after the group: in two-queue mode
both the `ConcurrentWriteToWAL` branch and the `disableWAL` branch
fetch-and-add `seq_inc`; in single-queue mode the counter is untouched. -/
def dwLastAlloc (inp : DefaultInput) : Nat :=
  if inp.preStatus.ok && inp.cfg.twoWriteQueues then
    inp.lastAlloc0 + dwInc inp
  else inp.lastAlloc0

/-- `status` after `status = io_s` (line collapsing preprocess failure with
the WAL outcome). -/
def dwStatus1 (inp : DefaultInput) : Status :=
  if inp.preStatus.ok then dwIo inp else inp.preStatus

/-- The assignment/pre-release loop runs only when the status is still OK;
otherwise no writer is assigned a sequence. -/
def dwAssignTriple (inp : DefaultInput) :
    List (Option Nat) × List Event × Status :=
  if (dwStatus1 inp).ok then
    assignLoop inp.cfg.seqPerBatch 0 (dwBase inp) inp.group
  else (inp.group.map fun _ => none, [], dwStatus1 inp)

def dwAssigned (inp : DefaultInput) : List (Option Nat) :=
  (dwAssignTriple inp).1

def dwPreEvents (inp : DefaultInput) : List Event :=
  (dwAssignTriple inp).2.1

def dwStatus2 (inp : DefaultInput) : Status :=
  (dwAssignTriple inp).2.2

/-- Memtable inserts happen only when the status is still OK after the
pre-release callbacks. -/
def dwMemEvents (inp : DefaultInput) : List Event :=
  if (dwStatus2 inp).ok then memApplyEvents inp.group else []

def dwEvents (inp : DefaultInput) : List Event :=
  dwWalEvents inp ++ dwPreEvents inp ++ dwMemEvents inp

/-- `need_log_sync`: requested sync, cleared by `PreprocessWrite` unless
its status is OK. -/
def dwNeedLogSync (inp : DefaultInput) : Bool :=
  inp.opts.sync && inp.preStatus.ok

/-- Status after the log-sync block: with two queues and a log sync the
`FlushWAL`/`SyncWAL` result replaces the status; `MarkLogsSynced` is
modelled as succeeding. -/
def dwStatus3 (inp : DefaultInput) : Status :=
  if dwNeedLogSync inp && inp.cfg.twoWriteQueues then inp.syncRes
  else dwStatus2 inp

/-- `LastSequence` after the group exits: advanced to
`last_sequence + seq_inc` only when the final status is OK. -/
def dwLastSeq (inp : DefaultInput) : Nat :=
  if (dwStatus3 inp).ok then dwLastBefore inp + dwInc inp else inp.lastSeq0

/-- Whether this write records a background error (`IOStatusCheck` on a WAL
failure, `WriteStatusCheck` otherwise; both skipped when the leader's own
pre-commit callback failed). -/
def dwRecorded (inp : DefaultInput) : Bool :=
  if leaderCallbackFailed inp.group then false
  else if !(dwIo inp).ok then ioCheckRecords inp.cfg.paranoidChecks (dwIo inp)
  else writeCheckRecords inp.cfg.paranoidChecks (dwStatus2 inp)

/-- Status returned to the leader: its own `FinalStatus()` when the group
status is OK (its callback status if that failed, its memtable status —
modelled OK — otherwise). -/
def dwFinal (inp : DefaultInput) : Status :=
  if (dwStatus3 inp).ok then
    match inp.group with
    | [] => dwStatus3 inp
    | w :: _ => if w.callbackFailed then w.cbStatus else Status.okS
  else dwStatus3 inp

structure DefaultPathResult where
  assigned : List (Option Nat)
  lastAllocated : Nat
  lastSequence : Nat
  events : List Event
  status : Status
  bgErrorRecorded : Bool

/-- One write group through the default path of `DBImpl::WriteImpl`
(lines from `EnterAsBatchGroupLeader` to `ExitAsBatchGroupLeader`). -/
def defaultWrite (inp : DefaultInput) : DefaultPathResult :=
  ⟨dwAssigned inp, dwLastAlloc inp, dwLastSeq inp, dwEvents inp,
    dwFinal inp, dwRecorded inp⟩

/-! ## The WAL-only path (`WriteImplWALOnly`) -/

/-- Inputs of one group through `WriteImplWALOnly`: besides the group and
options, the `AssignOrder` / `PublishLastSeq` flags of the call, the
preprocess status (consulted only in publish mode, i.e. unordered writes),
the allocation counter, the published sequence, and the external outcomes
of the WAL append and of `FlushWAL`/`SyncWAL`. -/
structure WalOnlyInput where
  cfg : DBConfig
  opts : WriteOptionsM
  group : List Writer
  assignOrder : Bool
  publishLastSeq : Bool
  preStatus : Status
  lastAlloc0 : Nat
  lastPub0 : Nat
  walIO : Status
  syncRes : Status

/-- `seq_inc` of `WriteImplWALOnly`: the total `batch_cnt` over writers
whose callback did not fail under `kDoAssignOrder`, zero otherwise. -/
def woInc (inp : WalOnlyInput) : Nat :=
  if inp.assignOrder then
    (inp.group.map fun w => if w.callbackFailed then 0 else w.batchCnt).sum
  else 0

/-- Publish-mode early exit: unordered writes propagate a failed
preprocess before any WAL work. -/
def woEarlyExit (inp : WalOnlyInput) : Bool :=
  inp.publishLastSeq && !inp.preStatus.ok

/-- Sequence assignment of `WriteImplWALOnly` (the loop over the group
after the WAL append): every writer whose callback did not fail receives
`curr_seq`, which advances by its `batch_cnt` under `kDoAssignOrder`. -/
def woAssignList (ao : Bool) (curr : Nat) : List Writer → List (Option Nat)
  | [] => []
  | w :: ws =>
      if w.callbackFailed then none :: woAssignList ao curr ws
      else
        some curr ::
          woAssignList ao (curr + if ao then w.batchCnt else 0) ws

/-- Pre-release loop of `WriteImplWALOnly`: invoked for every writer whose
callback did not fail and that has a callback, in group order, with the
sequence assigned above; a failing callback sets the status and breaks. -/
def woPreRelLoop (ao : Bool) (gidx : Nat) (curr : Nat) :
    List Writer → Status × List Event
  | [] => (Status.okS, [])
  | w :: ws =>
      if w.callbackFailed then woPreRelLoop ao (gidx + 1) curr ws
      else
        let nxt := curr + if ao then w.batchCnt else 0
        match w.preRelease with
        | none => woPreRelLoop ao (gidx + 1) nxt ws
        | some f =>
            let cbs := f curr
            if cbs.ok then
              let r := woPreRelLoop ao (gidx + 1) nxt ws
              (r.1, Event.preRelease gidx curr :: r.2)
            else (cbs, [Event.preRelease gidx curr])

def woWalEvents (inp : WalOnlyInput) : List Event :=
  if woEarlyExit inp then []
  else if !inp.opts.disableWAL then
    [Event.walAppend (writeToWALGroup inp.group (inp.lastAlloc0 + 1)).appended]
  else []

/-- `io_s` of the WAL-only path. -/
def woIo (inp : WalOnlyInput) : Status :=
  if !inp.opts.disableWAL then inp.walIO else Status.okS

/-- `LastAllocatedSequence` after the group: fetch-and-add of `seq_inc`
both inside `ConcurrentWriteToWAL` and in the `disableWAL` branch. -/
def woLastAlloc (inp : WalOnlyInput) : Nat :=
  if woEarlyExit inp then inp.lastAlloc0 else inp.lastAlloc0 + woInc inp

def woAssigned (inp : WalOnlyInput) : List (Option Nat) :=
  if woEarlyExit inp then inp.group.map fun _ => none
  else woAssignList inp.assignOrder (inp.lastAlloc0 + 1) inp.group

/-- Status after the optional `FlushWAL`/`SyncWAL` for `sync` writes. -/
def woStatus1 (inp : WalOnlyInput) : Status :=
  if (woIo inp).ok && inp.opts.sync then inp.syncRes else woIo inp

def woPreRelPair (inp : WalOnlyInput) : Status × List Event :=
  if woEarlyExit inp then (inp.preStatus, [])
  else if (woStatus1 inp).ok then
    woPreRelLoop inp.assignOrder 0 (inp.lastAlloc0 + 1) inp.group
  else (woStatus1 inp, [])

def woPreEvents (inp : WalOnlyInput) : List Event :=
  (woPreRelPair inp).2

def woStatus2 (inp : WalOnlyInput) : Status :=
  if (woStatus1 inp).ok then (woPreRelPair inp).1 else woStatus1 inp

def woEvents (inp : WalOnlyInput) : List Event :=
  woWalEvents inp ++ woPreEvents inp

/-- `LastSequence` (published) after the group: `last_sequence + seq_inc`
under `kDoPublishLastSeq`, untouched otherwise. -/
def woLastPub (inp : WalOnlyInput) : Nat :=
  if woEarlyExit inp then inp.lastPub0
  else if inp.publishLastSeq then inp.lastAlloc0 + woInc inp
  else inp.lastPub0

/-- Background-error recording of the WAL-only path: the publish-mode
`WriteStatusCheckOnLocked` on the preprocess status, else `IOStatusCheck`
or `WriteStatusCheck` after the WAL phase (skipped when the leader's
callback failed). -/
def woRecorded (inp : WalOnlyInput) : Bool :=
  if woEarlyExit inp then
    writeCheckRecords inp.cfg.paranoidChecks inp.preStatus
  else if leaderCallbackFailed inp.group then false
  else if !(woIo inp).ok then
    ioCheckRecords inp.cfg.paranoidChecks (woIo inp)
  else writeCheckRecords inp.cfg.paranoidChecks (woStatus1 inp)

structure WalOnlyResult where
  assigned : List (Option Nat)
  lastAllocated : Nat
  lastPublished : Nat
  events : List Event
  status : Status
  bgErrorRecorded : Bool

def walOnlyWrite (inp : WalOnlyInput) : WalOnlyResult :=
  ⟨woAssigned inp, woLastAlloc inp, woLastPub inp, woEvents inp,
    if woEarlyExit inp then inp.preStatus else woStatus2 inp,
    woRecorded inp⟩

/-- Unordered writes: after `WriteImplWALOnly` returns OK, each writer of
the group independently applies its batch to the memtable
(`UnorderedWriteMemtable`, reached from `WriteImpl` only on an OK status;
followers run it only after the leader released them). -/
def unorderedTrace (inp : WalOnlyInput) : List Event :=
  woEvents inp ++
    (if (walOnlyWrite inp).status.ok then memApplyEvents inp.group else [])

/-! ## Entry validation of `WriteImpl` (before any queue interaction) -/

structure EntryResult where
  rejected : Option Status
  joinedQueue : Bool
  lastAllocatedAfter : Nat
  deriving DecidableEq

/-- The checks at the top of `DBImpl::WriteImpl`, in source order; a
rejected write returns before any writer joins a queue and the sequence
counter is untouched. -/
def writeImplEntry (cfg : DBConfig) (opts : WriteOptionsM)
    (batchIsNull : Bool) (lastAlloc : Nat) : EntryResult :=
  if batchIsNull then
    ⟨some (Status.corruption "Batch is nullptr!"), false, lastAlloc⟩
  else if opts.sync && opts.disableWAL then
    ⟨some (Status.invalidArgument "Sync writes has to enable WAL."),
      false, lastAlloc⟩
  else if cfg.twoWriteQueues && cfg.enablePipelinedWrite then
    ⟨some (Status.notSupported
        "pipelined_writes is not compatible with concurrent prepares"),
      false, lastAlloc⟩
  else if cfg.seqPerBatch && cfg.enablePipelinedWrite then
    ⟨some (Status.notSupported
        "pipelined_writes is not compatible with seq_per_batch"),
      false, lastAlloc⟩
  else if cfg.unorderedWrite && cfg.enablePipelinedWrite then
    ⟨some (Status.notSupported
        "pipelined_writes is not compatible with unordered_write"),
      false, lastAlloc⟩
  else ⟨none, true, lastAlloc⟩

/-! ## Preprocessing (`PreprocessWrite`, `GetMaxTotalWalSize`) -/

/-- `DBImpl::GetMaxTotalWalSize`. -/
def GetMaxTotalWalSize (maxTotalWalSize maxTotalInMemoryState : Nat) : Nat :=
  if maxTotalWalSize = 0 then 4 * maxTotalInMemoryState
  else maxTotalWalSize

/-- Inputs of one `PreprocessWrite` call: the error-handler view, the WAL
accounting, the write-buffer/flush scheduler flags, the write-controller
flags, and the external statuses of the sub-operations it may invoke. -/
structure PreInput where
  dbStopped : Bool
  bgErr : Status
  singleCFMode : Bool
  totalLogSize : Nat
  maxTotalWalSize : Nat
  maxTotalInMemoryState : Nat
  switchWalRes : Status
  shouldFlush : Bool
  bufferFullRes : Status
  trimNonempty : Bool
  trimRes : Status
  flushSchedNonempty : Bool
  schedRes : Status
  ctrlStopped : Bool
  ctrlNeedsDelay : Bool
  delayRes : Status

structure PreResult where
  status : Status
  switchWalCalled : Bool
  bufferFullCalled : Bool
  delayCalled : Bool
  deriving DecidableEq

/-- `DBImpl::PreprocessWrite`, with each sub-operation's status supplied
externally: propagate a stored background error if the DB is stopped;
switch the WAL when the total WAL size exceeds the threshold (multi-CF
only); handle a full write buffer; trim memtable history; run scheduled
flushes; and delay the write when the controller is stopped or needs a
delay.  Each step runs only while the status is still OK. -/
def PreprocessWrite (inp : PreInput) : PreResult :=
  let s0 := if inp.dbStopped then inp.bgErr else Status.okS
  let doSwitch := s0.ok && !inp.singleCFMode &&
    decide (GetMaxTotalWalSize inp.maxTotalWalSize inp.maxTotalInMemoryState
      < inp.totalLogSize)
  let s1 := if doSwitch then inp.switchWalRes else s0
  let doBuf := s1.ok && inp.shouldFlush
  let s2 := if doBuf then inp.bufferFullRes else s1
  let s3 := if s2.ok && inp.trimNonempty then inp.trimRes else s2
  let s4 := if s3.ok && inp.flushSchedNonempty then inp.schedRes else s3
  let doDelay := s4.ok && (inp.ctrlStopped || inp.ctrlNeedsDelay)
  let s5 := if doDelay then inp.delayRes else s4
  ⟨s5, doSwitch, doBuf, doDelay⟩

/-! ## Delay-write (`DBImpl::DelayWrite`) -/

/-- A joint observation of `error_handler_.GetBGError().ok()` and
`write_controller_.IsStopped()` at one check of the condvar loop. -/
structure BGView where
  bgOk : Bool
  stopped : Bool
  deriving DecidableEq

/-- Inputs of one `DelayWrite` call: the `no_slowdown` option, the delay
computed by `WriteController::GetDelay` (microseconds), the controller's
`NeedsDelay` answer at each top of the sleep loop, the `BGView`s observed
at the successive checks of the condvar loop (an exhausted list means the
loop condition turned false), the view read after the loop, whether
`IsDBStopped` holds at the end, and the stored background error. -/
structure DelayInput where
  noSlowdown : Bool
  delay : Nat
  needsDelay : Nat → Bool
  waitStates : List BGView
  exitView : BGView
  dbStopped : Bool
  bgErr : Status

structure DelayResult where
  status : Status
  sleeps : Nat
  waits : Nat

/-- The 1 ms sleep loop: at tick `k` (after `k` sleeps of 1000 µs each,
so `NowMicros() = start + 1000 * k`) the loop exits when the controller no
longer needs a delay or the deadline `start + delay` has passed, and
otherwise sleeps once more.  `fuel` bounds the recursion; `delay` ticks
always suffice. -/
def sleepLoop (needs : Nat → Bool) (delay : Nat) : Nat → Nat → Nat
  | 0, k => k
  | fuel + 1, k =>
      if !needs k then k
      else if delay ≤ 1000 * k then k
      else sleepLoop needs delay fuel (k + 1)

def sleepTicks (needs : Nat → Bool) (delay : Nat) : Nat :=
  sleepLoop needs delay delay 0

/-- The condvar loop: while the background error is OK and the controller
is stopped, a `no_slowdown` writer returns `Incomplete("Write stall")`
immediately and every other writer waits on `bg_cv_` and rechecks. -/
def cvLoop (noSlowdown : Bool) : List BGView → Option Unit × Nat
  | [] => (none, 0)
  | v :: rest =>
      if v.bgOk && v.stopped then
        if noSlowdown then (some (), 0)
        else
          let r := cvLoop noSlowdown rest
          (r.1, r.2 + 1)
      else (none, 0)

/-- `DBImpl::DelayWrite`: fail fast with `Incomplete("Write stall")` for
`no_slowdown` writers facing a positive delay, otherwise sleep in 1 ms
ticks; then the condvar loop for a fully stopped controller; finally a
still-stopped controller yields `Incomplete` carrying the background
error's description, and a stopped DB returns the background error
itself. -/
def delayWriteM (inp : DelayInput) : DelayResult :=
  if 0 < inp.delay && inp.noSlowdown then
    ⟨Status.incomplete "Write stall", 0, 0⟩
  else
    let k := if 0 < inp.delay then sleepTicks inp.needsDelay inp.delay else 0
    let r := cvLoop inp.noSlowdown inp.waitStates
    if r.1.isSome then ⟨Status.incomplete "Write stall", k, r.2⟩
    else
      let s1 :=
        if inp.exitView.stopped then
          Status.incomplete inp.bgErr.describe
        else Status.okS
      let s2 := if inp.dbStopped then inp.bgErr else s1
      ⟨s2, k, r.2⟩

/-! ## Concrete writers, groups and inputs used as counterexamples and
witnesses -/

def batch1 : WriteBatch := ⟨0, [7], none, false⟩

def batch2 : WriteBatch := ⟨0, [3, 4], none, false⟩

/-- A plain writer: no pre-commit callback, no pre-release callback. -/
def wPlain : Writer := ⟨batch1, false, Status.okS, false, 1, none⟩

/-- A writer with a two-record batch and no callbacks. -/
def wPlain2 : Writer := ⟨batch2, false, Status.okS, false, 1, none⟩

/-- A writer whose pre-release callback always fails. -/
def wPreFail : Writer :=
  ⟨batch1, false, Status.okS, false, 1, some fun _ => Status.ioError "cb"⟩

/-- A writer whose pre-release callback always succeeds. -/
def wPreOk : Writer :=
  ⟨batch1, false, Status.okS, false, 1, some fun _ => Status.okS⟩

/-- A writer whose pre-commit callback failed. -/
def wCbFail : Writer := ⟨batch1, true, Status.busyS, false, 1, none⟩

def cfgBase : DBConfig := ⟨false, false, false, false, true, true⟩

def cfgTwoQ : DBConfig := ⟨true, false, false, false, true, true⟩

def cfgNoParanoid : DBConfig := ⟨false, false, false, false, true, false⟩

def optsBase : WriteOptionsM := ⟨false, false, false, false⟩

def optsNoWAL : WriteOptionsM := ⟨false, true, false, false⟩

/-- C1 counterexample input: writer 0's pre-release callback fails, so
writer 1 — whose pre-commit callback did not fail — is never assigned a
sequence although the WAL phase succeeded. -/
def inpC1ce : DefaultInput :=
  ⟨cfgBase, optsBase, [wPreFail, wPlain], Status.okS, 10, 0,
    Status.okS, Status.okS⟩

/-- C1 witness input: a mixed group (succeeding pre-release callback,
failed pre-commit callback, plain writer) in single-queue mode. -/
def inpC1w : DefaultInput :=
  ⟨cfgBase, optsBase, [wPreOk, wCbFail, wPlain2], Status.okS, 10, 0,
    Status.okS, Status.okS⟩

/-- C2 witness inputs. -/
def inpC2w : DefaultInput :=
  ⟨cfgBase, optsBase, [wPreOk, wPlain], Status.okS, 0, 0,
    Status.okS, Status.okS⟩

def inpC2wo : WalOnlyInput :=
  ⟨cfgTwoQ, optsBase, [wPreOk, wPlain], true, false, Status.okS, 0, 0,
    Status.okS, Status.okS⟩

/-- C5 counterexample input: `no_slowdown`, controller stopped, background
error already set — the write fails immediately, but the `Incomplete`
status carries the background error's description, not "Write stall". -/
def inpC5ce : DelayInput :=
  ⟨true, 0, fun _ => false, [⟨false, true⟩], ⟨false, true⟩, false,
    Status.ioError "bg"⟩

/-- C5 witness input: `no_slowdown` with a positive computed delay. -/
def inpC5w : DelayInput :=
  ⟨true, 5000, fun _ => true, [], ⟨false, false⟩, false, Status.okS⟩

/-- C5 second witness input: a blocking writer sleeping through the stall. -/
def inpC5w2 : DelayInput :=
  ⟨false, 2500, fun k => decide (k < 2), [⟨true, true⟩, ⟨true, true⟩],
    ⟨false, false⟩, false, Status.okS⟩

/-- C6 counterexample input: single-column-family mode with the total WAL
size far above the threshold — no WAL switch is triggered. -/
def inpC6ce : PreInput :=
  ⟨false, Status.okS, true, 100, 1, 0, Status.okS, false, Status.okS,
    false, Status.okS, false, Status.okS, false, false, Status.okS⟩

/-- C6 witness input: multi-CF mode, threshold exceeded. -/
def inpC6w : PreInput :=
  ⟨false, Status.okS, false, 100, 0, 8, Status.okS, false, Status.okS,
    false, Status.okS, false, Status.okS, false, false, Status.okS⟩

/-- C7 counterexample input: `paranoid_checks` off, the WAL append fails
with an IOFenced status — the background error is recorded anyway. -/
def inpC7ce : DefaultInput :=
  ⟨cfgNoParanoid, optsBase, [wPlain], Status.okS, 0, 0,
    Status.ioFenced "fenced", Status.okS⟩

/-- C7 witness input: `paranoid_checks` on, plain IO error on the WAL. -/
def inpC7w : DefaultInput :=
  ⟨cfgBase, optsBase, [wPlain], Status.okS, 0, 0,
    Status.ioError "wal", Status.okS⟩

/-- C10 witness inputs: `disable_wal` writes in the two-queue default path
and in the WAL-only path. -/
def inpC10d : DefaultInput :=
  ⟨cfgTwoQ, optsNoWAL, [wPlain, wPlain2], Status.okS, 4, 4,
    Status.okS, Status.okS⟩

def inpC10w : WalOnlyInput :=
  ⟨cfgTwoQ, optsNoWAL, [wPlain, wPlain2], true, false, Status.okS, 4, 4,
    Status.okS, Status.okS⟩

/-- C9 witness operation sequence. -/
def opsC9 : List LimiterOp :=
  [LimiterOp.getTok false, LimiterOp.getTok false, LimiterOp.dropTok,
    LimiterOp.getTok true, LimiterOp.dropTok]

/-! ## Theorems -/

/-- Helper: the outstanding counter always equals the number of live
tokens along any well-formed operation sequence. -/
theorem limiter_outstanding_eq_live (ops : List LimiterOp) :
    ∀ r : LimiterRun, limiterWF r ops = true →
      r.st.outstandingTasks = (r.live : Int) →
      (limiterRunOps r ops).st.outstandingTasks =
        ((limiterRunOps r ops).live : Int) := by
  induction ops with
  | nil => intro r _ h; simpa [limiterRunOps] using h
  | cons op rest ih =>
      intro r hwf hinv
      rw [limiterWF, Bool.and_eq_true] at hwf
      obtain ⟨h1, h2⟩ := hwf
      have hstep : (limiterStep r op).st.outstandingTasks =
          ((limiterStep r op).live : Int) := by
        cases op with
        | getTok f =>
            simp only [limiterStep, GetToken]
            split
            · simp [hinv]
            · simpa using hinv
        | dropTok =>
            have hlive : 0 < r.live := by
              simpa [LimiterOp.dropTok] using h1
            simp only [limiterStep, destroyToken]
            omega
        | setMax n => simpa [limiterStep, SetMaxOutstandingTask] using hinv
        | resetMax =>
            simpa [limiterStep, ResetMaxOutstandingTask,
              SetMaxOutstandingTask] using hinv
      have hrun : limiterRunOps r (op :: rest) =
          limiterRunOps (limiterStep r op) rest := rfl
      rw [hrun]
      exact ih _ h2 hstep

/-- Claim C8: `get_token(force)` returns a token exactly when `force` is
set, the cap is negative, or the outstanding count is below the cap; a
granted token increments the outstanding count by exactly one and a
refusal leaves the state unchanged (the cap is never modified). -/
theorem claim_C8 (s : TaskLimiterState) (force : Bool) :
    (GetToken s force).1 =
      (force || decide (s.maxOutstandingTasks < 0) ||
        decide (s.outstandingTasks < s.maxOutstandingTasks)) ∧
    (GetToken s force).2.outstandingTasks =
      (if (GetToken s force).1 then s.outstandingTasks + 1
        else s.outstandingTasks) ∧
    (GetToken s force).2.maxOutstandingTasks = s.maxOutstandingTasks := by
  simp only [GetToken]
  by_cases hf : force = true <;>
    by_cases hm : s.maxOutstandingTasks < 0 <;>
      by_cases ho : s.outstandingTasks < s.maxOutstandingTasks <;>
        simp [hf, hm, ho]

/-- Claim C9: along every well-formed sequence of limiter operations the
outstanding count starts at zero, always equals the number of live
tokens (hence never goes negative, and is zero once every token has been
destroyed, as the limiter's destructor asserts); destroying a token
decrements the count by exactly one and a throttled `get_token` leaves
the state untouched. -/
theorem claim_C9 (cap : Int) (ops : List LimiterOp)
    (hwf : limiterWF (limiterStart cap) ops = true) :
    (limiterStart cap).st.outstandingTasks = 0 ∧
    (limiterRunOps (limiterStart cap) ops).st.outstandingTasks =
      ((limiterRunOps (limiterStart cap) ops).live : Int) ∧
    0 ≤ (limiterRunOps (limiterStart cap) ops).st.outstandingTasks ∧
    ((limiterRunOps (limiterStart cap) ops).live = 0 →
      (limiterRunOps (limiterStart cap) ops).st.outstandingTasks = 0) ∧
    (∀ r : LimiterRun,
      (limiterStep r LimiterOp.dropTok).st.outstandingTasks =
        r.st.outstandingTasks - 1) ∧
    (∀ r : LimiterRun, ∀ f : Bool,
      (GetToken r.st f).1 = false → (GetToken r.st f).2 = r.st) := by
  have hinv := limiter_outstanding_eq_live ops (limiterStart cap) hwf
    (by simp [limiterStart, limiterInit])
  refine ⟨rfl, hinv, ?_, ?_, ?_, ?_⟩
  · rw [hinv]; positivity
  · intro h0; rw [hinv, h0]; rfl
  · intro r; rfl
  · intro r f hf
    simp only [GetToken] at hf ⊢
    split at hf
    · exact absurd hf (by simp)
    · rename_i h
      rw [if_neg h]

/-- Claim C9 witness: a concrete well-formed run (grant, throttle, drop,
forced grant, drop) through a cap-1 limiter. -/
theorem claim_C9_witness :
    limiterWF (limiterStart 1) opsC9 = true ∧
    ((limiterStart 1).st.outstandingTasks = 0 ∧
      (limiterRunOps (limiterStart 1) opsC9).st.outstandingTasks =
        ((limiterRunOps (limiterStart 1) opsC9).live : Int) ∧
      0 ≤ (limiterRunOps (limiterStart 1) opsC9).st.outstandingTasks ∧
      ((limiterRunOps (limiterStart 1) opsC9).live = 0 →
        (limiterRunOps (limiterStart 1) opsC9).st.outstandingTasks = 0) ∧
      (∀ r : LimiterRun,
        (limiterStep r LimiterOp.dropTok).st.outstandingTasks =
          r.st.outstandingTasks - 1) ∧
      (∀ r : LimiterRun, ∀ f : Bool,
        (GetToken r.st f).1 = false → (GetToken r.st f).2 = r.st)) :=
  ⟨by decide, claim_C9 1 opsC9 (by decide)⟩

/-- Claim C3: a null batch is rejected with `Corruption`; `sync` together
with `disableWAL` is rejected with `InvalidArgument`; pipelined write
together with two write queues, seq-per-batch or unordered write is
rejected with `NotSupported`; in every such case the status goes straight
back to the caller — the writer never joins a queue and the sequence
counter is untouched. -/
theorem claim_C3 (cfg : DBConfig) (opts : WriteOptionsM) (la : Nat) :
    (writeImplEntry cfg opts true la =
      ⟨some (Status.corruption "Batch is nullptr!"), false, la⟩) ∧
    (opts.sync = true → opts.disableWAL = true →
      writeImplEntry cfg opts false la =
        ⟨some (Status.invalidArgument "Sync writes has to enable WAL."),
          false, la⟩) ∧
    (¬(opts.sync = true ∧ opts.disableWAL = true) →
      cfg.enablePipelinedWrite = true →
      (cfg.twoWriteQueues = true ∨ cfg.seqPerBatch = true ∨
        cfg.unorderedWrite = true) →
      ((writeImplEntry cfg opts false la).rejected.map Status.code =
          some StatusCode.NotSupported ∧
        (writeImplEntry cfg opts false la).joinedQueue = false ∧
        (writeImplEntry cfg opts false la).lastAllocatedAfter = la)) := by
  refine ⟨by simp [writeImplEntry], ?_, ?_⟩
  · intro hs hd
    simp [writeImplEntry, hs, hd]
  · intro hnsd hp hone
    cases hs : opts.sync <;> cases hd : opts.disableWAL <;>
      cases hq : cfg.twoWriteQueues <;> cases hb : cfg.seqPerBatch <;>
        cases hu : cfg.unorderedWrite <;>
          simp_all [writeImplEntry, Status.notSupported]

/-- Claim C3 witness: each rejection case at a concrete configuration. -/
theorem claim_C3_witness :
    ((⟨false, true, true, false, true, true⟩ : DBConfig).enablePipelinedWrite
        = true ∧
      (⟨false, true, true, false, true, true⟩ : DBConfig).seqPerBatch
        = true) ∧
    (writeImplEntry cfgBase (⟨true, true, false, false⟩ : WriteOptionsM)
        false 9 =
      ⟨some (Status.invalidArgument "Sync writes has to enable WAL."),
        false, 9⟩) ∧
    ((writeImplEntry (⟨false, true, true, false, true, true⟩ : DBConfig)
        optsBase false 9).rejected.map Status.code =
          some StatusCode.NotSupported ∧
      (writeImplEntry (⟨false, true, true, false, true, true⟩ : DBConfig)
        optsBase false 9).joinedQueue = false ∧
      (writeImplEntry (⟨false, true, true, false, true, true⟩ : DBConfig)
        optsBase false 9).lastAllocatedAfter = 9) :=
  ⟨by decide,
    (claim_C3 cfgBase (⟨true, true, false, false⟩ : WriteOptionsM) 9).2.1
      rfl rfl,
    (claim_C3 (⟨false, true, true, false, true, true⟩ : DBConfig)
      optsBase 9).2.2 (by decide) rfl (Or.inr (Or.inl rfl))⟩

theorem okS_ok : Status.okS.ok = true := rfl

/-- Claim C4 counterexample: a single-writer group whose leader's batch
has no WAL truncation point but whose pre-commit callback failed is not
appended in place — the (empty) scratch batch is used, dropping the
batch's records. -/
theorem claim_C4_counterexample :
    (writeToWALGroup [wCbFail] 5).kind = MergedKind.scratch ∧
    wCbFail.batch.walTermPoint = none ∧
    (writeToWALGroup [wCbFail] 5).appended.entries = [] ∧
    wCbFail.batch.entries = [7] := by
  refine ⟨rfl, rfl, rfl, rfl⟩

/-- Claim C4 (amended): a group with exactly one writer whose batch has no
WAL truncation point and whose pre-commit callback did not fail is
appended in place (its own batch, stamped with the base sequence); every
other group goes through the scratch batch, which collects the WAL
contents of exactly the writers whose pre-commit callback did not fail, in
group order, and is stamped with the group's base sequence. -/
theorem claim_C4_amended (g : List Writer) (base : Nat) :
    (∀ w, g = [w] → w.callbackFailed = false → w.batch.walTermPoint = none →
      (writeToWALGroup g base).kind = MergedKind.inPlace ∧
      (writeToWALGroup g base).appended = w.batch.setSeq base ∧
      (writeToWALGroup g base).writeWithWal = 1) ∧
    ((∀ w, g = [w] →
        w.callbackFailed = true ∨ w.batch.walTermPoint ≠ none) →
      (writeToWALGroup g base).kind = MergedKind.scratch ∧
      (writeToWALGroup g base).appended.entries =
        ((g.filter fun w => !w.callbackFailed).flatMap
          fun w => w.batch.walContents) ∧
      (writeToWALGroup g base).appended.seq = base ∧
      (writeToWALGroup g base).writeWithWal =
        (g.filter fun w => !w.callbackFailed).length) := by
  constructor
  · intro w hg hcb hterm
    subst hg
    simp [writeToWALGroup, MergeBatch, hcb, hterm, WriteBatch.setSeq]
  · intro h
    cases g with
    | nil =>
        simp [writeToWALGroup, MergeBatch, emptyBatch, WriteBatch.setSeq]
    | cons leader rest =>
        cases rest with
        | nil =>
            rcases h leader rfl with hcb | hterm
            · simp [writeToWALGroup, MergeBatch, hcb, WriteBatch.setSeq,
                emptyBatch]
            · have hni : leader.batch.walTermPoint.isNone = false := by
                cases hx : leader.batch.walTermPoint with
                | none => exact absurd hx hterm
                | some k => rfl
              simp [writeToWALGroup, MergeBatch, hni, WriteBatch.setSeq,
                emptyBatch]
        | cons w2 rest2 =>
            simp [writeToWALGroup, MergeBatch, WriteBatch.setSeq, emptyBatch]

/-- Claim C4 witness: the in-place case for a clean single-writer group,
and the scratch case for a three-writer group with a failed callback in
the middle. -/
theorem claim_C4_witness :
    (wPlain.callbackFailed = false ∧ wPlain.batch.walTermPoint = none ∧
      ((writeToWALGroup [wPlain] 3).kind = MergedKind.inPlace ∧
        (writeToWALGroup [wPlain] 3).appended = wPlain.batch.setSeq 3 ∧
        (writeToWALGroup [wPlain] 3).writeWithWal = 1)) ∧
    ((writeToWALGroup [wPlain, wCbFail, wPlain2] 3).kind =
        MergedKind.scratch ∧
      (writeToWALGroup [wPlain, wCbFail, wPlain2] 3).appended.entries =
        (([wPlain, wCbFail, wPlain2].filter
            fun w => !w.callbackFailed).flatMap
          fun w => w.batch.walContents) ∧
      (writeToWALGroup [wPlain, wCbFail, wPlain2] 3).appended.seq = 3 ∧
      (writeToWALGroup [wPlain, wCbFail, wPlain2] 3).writeWithWal =
        ([wPlain, wCbFail, wPlain2].filter
          fun w => !w.callbackFailed).length) :=
  ⟨⟨rfl, rfl, (claim_C4_amended [wPlain] 3).1 wPlain rfl rfl rfl⟩,
    (claim_C4_amended [wPlain, wCbFail, wPlain2] 3).2
      (by intro w hw; simp at hw)⟩

/-- Claim C6 counterexample: in single-column-family mode no WAL switch is
triggered even though the total WAL size is far above the threshold, so
the switch is not triggered "exactly when" the size exceeds the
threshold. -/
theorem claim_C6_counterexample :
    (PreprocessWrite inpC6ce).switchWalCalled = false ∧
    GetMaxTotalWalSize inpC6ce.maxTotalWalSize
        inpC6ce.maxTotalInMemoryState < inpC6ce.totalLogSize ∧
    inpC6ce.dbStopped = false := by
  refine ⟨rfl, by decide, rfl⟩

/-- Claim C6 (amended): the WAL-rotation threshold is the configured
`max_total_wal_size` when nonzero and otherwise four times the total
in-memory write-buffer reservation; the WAL switch is triggered exactly
when additionally the DB is not in single-column-family mode and no
stored background error stopped the DB. -/
theorem claim_C6_amended (inp : PreInput)
    (h : inp.dbStopped = true → inp.bgErr.ok = false) :
    GetMaxTotalWalSize inp.maxTotalWalSize inp.maxTotalInMemoryState =
      (if inp.maxTotalWalSize = 0 then 4 * inp.maxTotalInMemoryState
        else inp.maxTotalWalSize) ∧
    ((PreprocessWrite inp).switchWalCalled = true ↔
      (inp.dbStopped = false ∧ inp.singleCFMode = false ∧
        GetMaxTotalWalSize inp.maxTotalWalSize inp.maxTotalInMemoryState <
          inp.totalLogSize)) := by
  constructor
  · rfl
  · cases hd : inp.dbStopped with
    | true =>
        have hb := h hd
        simp [PreprocessWrite, hd, hb]
    | false =>
        cases hs : inp.singleCFMode <;>
          simp [PreprocessWrite, hd, hs, okS_ok]

/-- Claim C6 witness: multi-CF mode with `max_total_wal_size = 0`, four
memtable-reservation multiples below the WAL total. -/
theorem claim_C6_witness :
    (inpC6w.dbStopped = true → inpC6w.bgErr.ok = false) ∧
    (GetMaxTotalWalSize inpC6w.maxTotalWalSize
        inpC6w.maxTotalInMemoryState =
      (if inpC6w.maxTotalWalSize = 0 then 4 * inpC6w.maxTotalInMemoryState
        else inpC6w.maxTotalWalSize) ∧
      ((PreprocessWrite inpC6w).switchWalCalled = true ↔
        (inpC6w.dbStopped = false ∧ inpC6w.singleCFMode = false ∧
          GetMaxTotalWalSize inpC6w.maxTotalWalSize
              inpC6w.maxTotalInMemoryState < inpC6w.totalLogSize))) :=
  ⟨by decide, claim_C6_amended inpC6w (by decide)⟩

/-- Claim C7 counterexample: with `paranoid_checks` off, an IOFenced WAL
write status is still recorded as a background error, so recording does
not happen only if `paranoid_checks` is enabled. -/
theorem claim_C7_counterexample :
    (defaultWrite inpC7ce).bgErrorRecorded = true ∧
    inpC7ce.cfg.paranoidChecks = false ∧
    (defaultWrite inpC7ce).status.ok = false := by
  refine ⟨by decide, rfl, by decide⟩

/-- Claim C7 (amended): for a leader whose pre-commit callback did not
fail, a non-OK WAL write status is recorded as a background error if and
only if `paranoid_checks` is enabled and the status is neither Busy nor
Incomplete, or the status is IOFenced (recorded regardless of
`paranoid_checks`); the faulting writer also returns the error to its
caller. -/
theorem claim_C7_amended (inp : DefaultInput)
    (hcb : leaderCallbackFailed inp.group = false)
    (hpre : inp.preStatus = Status.okS)
    (hdw : inp.opts.disableWAL = false)
    (hsync : inp.opts.sync = false)
    (hio : inp.walIO.ok = false) :
    (defaultWrite inp).bgErrorRecorded =
      ((inp.cfg.paranoidChecks && !inp.walIO.isBusy &&
        !inp.walIO.isIncomplete) || inp.walIO.isIOFenced) ∧
    (defaultWrite inp).status = inp.walIO := by
  have hio2 : dwIo inp = inp.walIO := by
    simp [dwIo, hpre, hdw, okS_ok]
  have h1 : dwStatus1 inp = inp.walIO := by
    simp [dwStatus1, hpre, okS_ok, hio2]
  have h2 : dwStatus2 inp = inp.walIO := by
    simp [dwStatus2, dwAssignTriple, h1, hio]
  have h3 : dwStatus3 inp = inp.walIO := by
    simp [dwStatus3, dwNeedLogSync, hsync, h2]
  constructor
  · simp [defaultWrite, dwRecorded, hcb, hio2, hio, ioCheckRecords]
  · simp [defaultWrite, dwFinal, h3, hio]

/-- Claim C7 witness: `paranoid_checks` on, plain IO error on the WAL
append of a solo clean writer. -/
theorem claim_C7_witness :
    (leaderCallbackFailed inpC7w.group = false ∧
      inpC7w.preStatus = Status.okS ∧ inpC7w.opts.disableWAL = false ∧
      inpC7w.opts.sync = false ∧ inpC7w.walIO.ok = false) ∧
    ((defaultWrite inpC7w).bgErrorRecorded =
      ((inpC7w.cfg.paranoidChecks && !inpC7w.walIO.isBusy &&
        !inpC7w.walIO.isIncomplete) || inpC7w.walIO.isIOFenced) ∧
    (defaultWrite inpC7w).status = inpC7w.walIO) :=
  ⟨⟨by decide, rfl, rfl, rfl, by decide⟩,
    claim_C7_amended inpC7w (by decide) rfl rfl rfl (by decide)⟩

theorem consumedBefore_zero (spb : Bool) (g : List Writer) :
    consumedBefore spb g 0 = 0 := rfl

theorem consumedBefore_succ (spb : Bool) (w : Writer) (ws : List Writer)
    (i : Nat) :
    consumedBefore spb (w :: ws) (i + 1) =
      (if w.callbackFailed then 0 else w.consumed spb) +
        consumedBefore spb ws i := by
  simp [consumedBefore]

/-- Helper: the failed-head step equation of `assignLoop`. -/
theorem assignLoop_cons_failed (spb : Bool) (g0 n : Nat) (w : Writer)
    (ws : List Writer) (hf : w.callbackFailed = true) :
    assignLoop spb g0 n (w :: ws) =
      (none :: (assignLoop spb (g0 + 1) n ws).1,
        (assignLoop spb (g0 + 1) n ws).2.1,
        (assignLoop spb (g0 + 1) n ws).2.2) := by
  simp [assignLoop, hf]

/-- Helper: the clean-head step equation of `assignLoop` (callback did not
fail and any pre-release callback succeeds at the assigned sequence). -/
theorem assignLoop_cons_ok (spb : Bool) (g0 n : Nat) (w : Writer)
    (ws : List Writer) (hf : w.callbackFailed = false)
    (hok : ∀ f, w.preRelease = some f → (f n).ok = true) :
    assignLoop spb g0 n (w :: ws) =
      (some n :: (assignLoop spb (g0 + 1) (n + w.consumed spb) ws).1,
        (match w.preRelease with
          | some _ => Event.preRelease g0 n ::
              (assignLoop spb (g0 + 1) (n + w.consumed spb) ws).2.1
          | none => (assignLoop spb (g0 + 1) (n + w.consumed spb) ws).2.1),
        (assignLoop spb (g0 + 1) (n + w.consumed spb) ws).2.2) := by
  cases hp : w.preRelease with
  | none => simp [assignLoop, hf, hp]
  | some f =>
      have h2 := hok f hp
      simp [assignLoop, hf, hp, h2]

/-- Helper: under no-pre-release-failure, writer `i` of the group is
assigned `n + cumulative consumption of the earlier writers` when its
pre-commit callback did not fail, and nothing otherwise. -/
theorem assignLoop_assigned (spb : Bool) (ws : List Writer)
    (hnf : NoPreReleaseFailure ws) :
    ∀ g0 n i, (assignLoop spb g0 n ws).1[i]? =
      (ws[i]?).map fun w =>
        if w.callbackFailed then (none : Option Nat)
        else some (n + consumedBefore spb ws i) := by
  induction ws with
  | nil => intro g0 n i; simp [assignLoop]
  | cons w ws ih =>
      have hnf2 : NoPreReleaseFailure ws := fun w2 hw2 =>
        hnf w2 (List.mem_cons_of_mem _ hw2)
      intro g0 n i
      by_cases hf : w.callbackFailed = true
      · rw [assignLoop_cons_failed spb g0 n w ws hf]
        cases i with
        | zero => simp [hf, consumedBefore_zero]
        | succ j =>
            simp only [List.getElem?_cons_succ]
            rw [ih hnf2 (g0 + 1) n j]
            simp [consumedBefore_succ, hf]
      · have hfal : w.callbackFailed = false := by simpa using hf
        have hok : ∀ f, w.preRelease = some f → (f n).ok = true :=
          fun f hp => hnf w (by simp) f hp n
        rw [assignLoop_cons_ok spb g0 n w ws hfal hok]
        cases i with
        | zero => simp [hfal, consumedBefore_zero]
        | succ j =>
            simp only [List.getElem?_cons_succ]
            rw [ih hnf2 (g0 + 1) (n + w.consumed spb) j]
            simp [consumedBefore_succ, hfal, Nat.add_assoc]

/-- Helper: under no-pre-release-failure the loop finishes with status OK. -/
theorem assignLoop_status (spb : Bool) (ws : List Writer)
    (hnf : NoPreReleaseFailure ws) :
    ∀ g0 n, (assignLoop spb g0 n ws).2.2 = Status.okS := by
  induction ws with
  | nil => intro g0 n; rfl
  | cons w ws ih =>
      have hnf2 : NoPreReleaseFailure ws := fun w2 hw2 =>
        hnf w2 (List.mem_cons_of_mem _ hw2)
      intro g0 n
      by_cases hf : w.callbackFailed = true
      · rw [assignLoop_cons_failed spb g0 n w ws hf]
        exact ih hnf2 (g0 + 1) n
      · have hfal : w.callbackFailed = false := by simpa using hf
        have hok : ∀ f, w.preRelease = some f → (f n).ok = true :=
          fun f hp => hnf w (by simp) f hp n
        rw [assignLoop_cons_ok spb g0 n w ws hfal hok]
        exact ih hnf2 (g0 + 1) (n + w.consumed spb)

/-- Claim C1 counterexample: the WAL phase succeeded, writer 1's
pre-commit callback did not fail, yet writer 1 is assigned no sequence —
writer 0's pre-release callback failed and broke the assignment loop. -/
theorem claim_C1_counterexample :
    (defaultWrite inpC1ce).assigned[1]? = some none ∧
    (inpC1ce.group.map Writer.callbackFailed) = [false, false] ∧
    inpC1ce.walIO = Status.okS ∧
    (defaultWrite inpC1ce).assigned[0]? = some (some 11) :=
  ⟨rfl, rfl, rfl, rfl⟩

/-- Claim C1 (amended): in the default write mode, for every write group
whose WAL phase succeeded and in which no pre-release callback fails, each
writer whose pre-commit callback did not fail is assigned
`base + cumulative count consumed by earlier non-failed writers` (record
count per writer if it writes to the memtable, batch count under
seq-per-batch), writers whose pre-commit callback failed are assigned no
sequence, and last-allocated advances by exactly the total record count
(total batch count under seq-per-batch) over non-failed writers. -/
theorem claim_C1_amended (inp : DefaultInput)
    (hpre : inp.preStatus = Status.okS)
    (hio : inp.walIO = Status.okS)
    (hnf : NoPreReleaseFailure inp.group) :
    (∀ i, (defaultWrite inp).assigned[i]? =
      (inp.group[i]?).map fun w =>
        if w.callbackFailed then (none : Option Nat)
        else some (dwBase inp +
          consumedBefore inp.cfg.seqPerBatch inp.group i)) ∧
    (if inp.cfg.twoWriteQueues then
        (defaultWrite inp).lastAllocated =
          inp.lastAlloc0 + groupSeqInc inp.cfg.seqPerBatch inp.group
      else
        (defaultWrite inp).lastSequence =
          inp.lastSeq0 + groupSeqInc inp.cfg.seqPerBatch inp.group) := by
  have hio2 : dwIo inp = Status.okS := by
    rw [dwIo]; split
    · exact hio
    · rfl
  have h1 : dwStatus1 inp = Status.okS := by
    simp [dwStatus1, hpre, okS_ok, hio2]
  have htrip : dwAssignTriple inp =
      assignLoop inp.cfg.seqPerBatch 0 (dwBase inp) inp.group := by
    rw [dwAssignTriple, h1, if_pos okS_ok]
  constructor
  · intro i
    show (dwAssigned inp)[i]? = _
    rw [dwAssigned, htrip]
    exact assignLoop_assigned inp.cfg.seqPerBatch inp.group hnf 0
      (dwBase inp) i
  · have h2 : dwStatus2 inp = Status.okS := by
      rw [dwStatus2, htrip]
      exact assignLoop_status inp.cfg.seqPerBatch inp.group hnf 0 (dwBase inp)
    by_cases hq : inp.cfg.twoWriteQueues = true
    · rw [if_pos hq]
      show dwLastAlloc inp = _
      simp [dwLastAlloc, hpre, okS_ok, hq, dwInc]
    · have hq2 : inp.cfg.twoWriteQueues = false := by simpa using hq
      rw [if_neg hq]
      show dwLastSeq inp = _
      have h3 : dwStatus3 inp = Status.okS := by
        simp [dwStatus3, dwNeedLogSync, hq2, h2]
      simp [dwLastSeq, h3, okS_ok, dwLastBefore, hq2, dwInc]

/-- Helper: the pre-release callbacks of the C1 witness group never
fail. -/
theorem noPRFail_C1w : NoPreReleaseFailure [wPreOk, wCbFail, wPlain2] := by
  intro w hw f hf n
  simp only [List.mem_cons, List.not_mem_nil, or_false] at hw
  rcases hw with rfl | rfl | rfl
  · have h0 : wPreOk.preRelease = some (fun _ => Status.okS) := rfl
    rw [h0] at hf
    have hf2 := Option.some.inj hf
    rw [← hf2]
    rfl
  · have h0 : wCbFail.preRelease = (none : Option (Nat → Status)) := rfl
    rw [h0] at hf
    exact absurd hf (by simp)
  · have h0 : wPlain2.preRelease = (none : Option (Nat → Status)) := rfl
    rw [h0] at hf
    exact absurd hf (by simp)

/-- Claim C1 witness: a three-writer single-queue group (clean writer with
a succeeding pre-release callback, failed pre-commit callback, clean
two-record writer). -/
theorem claim_C1_witness :
    (inpC1w.preStatus = Status.okS ∧ inpC1w.walIO = Status.okS) ∧
    ((∀ i, (defaultWrite inpC1w).assigned[i]? =
      (inpC1w.group[i]?).map fun w =>
        if w.callbackFailed then (none : Option Nat)
        else some (dwBase inpC1w +
          consumedBefore inpC1w.cfg.seqPerBatch inpC1w.group i)) ∧
    (if inpC1w.cfg.twoWriteQueues then
        (defaultWrite inpC1w).lastAllocated =
          inpC1w.lastAlloc0 + groupSeqInc inpC1w.cfg.seqPerBatch inpC1w.group
      else
        (defaultWrite inpC1w).lastSequence =
          inpC1w.lastSeq0 +
            groupSeqInc inpC1w.cfg.seqPerBatch inpC1w.group)) :=
  ⟨⟨rfl, rfl⟩, claim_C1_amended inpC1w rfl rfl noPRFail_C1w⟩

/-- Helper: the step equation of `assignLoop` for a clean head without a
pre-release callback. -/
theorem assignLoop_cons_nocb (spb : Bool) (g0 n : Nat) (w : Writer)
    (ws : List Writer) (hf : w.callbackFailed = false)
    (hp : w.preRelease = none) :
    assignLoop spb g0 n (w :: ws) =
      (some n :: (assignLoop spb (g0 + 1) (n + w.consumed spb) ws).1,
        (assignLoop spb (g0 + 1) (n + w.consumed spb) ws).2.1,
        (assignLoop spb (g0 + 1) (n + w.consumed spb) ws).2.2) := by
  simp [assignLoop, hf, hp]

/-- Helper: the step equation of `assignLoop` for a clean head whose
pre-release callback succeeds at the assigned sequence. -/
theorem assignLoop_cons_cbok (spb : Bool) (g0 n : Nat) (w : Writer)
    (ws : List Writer) (hf : w.callbackFailed = false) (f : Nat → Status)
    (hp : w.preRelease = some f) (hok : (f n).ok = true) :
    assignLoop spb g0 n (w :: ws) =
      (some n :: (assignLoop spb (g0 + 1) (n + w.consumed spb) ws).1,
        Event.preRelease g0 n ::
          (assignLoop spb (g0 + 1) (n + w.consumed spb) ws).2.1,
        (assignLoop spb (g0 + 1) (n + w.consumed spb) ws).2.2) := by
  simp [assignLoop, hf, hp, hok]

/-- Helper: the step equation of `assignLoop` for a clean head whose
pre-release callback fails at the assigned sequence (the loop breaks). -/
theorem assignLoop_cons_break (spb : Bool) (g0 n : Nat) (w : Writer)
    (ws : List Writer) (hf : w.callbackFailed = false) (f : Nat → Status)
    (hp : w.preRelease = some f) (hok : (f n).ok = false) :
    assignLoop spb g0 n (w :: ws) =
      (some n :: ws.map fun _ => none,
        [Event.preRelease g0 n], f n) := by
  simp [assignLoop, hf, hp, hok]

/-- Helper: every event emitted by `assignLoop` is a pre-release
invocation with group index at least the starting index. -/
theorem assignLoop_events_shape (spb : Bool) (ws : List Writer) :
    ∀ g0 n, ∀ e ∈ (assignLoop spb g0 n ws).2.1,
      ∃ i s, e = Event.preRelease i s ∧ g0 ≤ i := by
  induction ws with
  | nil => intro g0 n e he; simp [assignLoop] at he
  | cons w ws ih =>
      intro g0 n e he
      by_cases hf : w.callbackFailed = true
      · rw [assignLoop_cons_failed spb g0 n w ws hf] at he
        obtain ⟨i, s, rfl, hle⟩ := ih (g0 + 1) n e he
        exact ⟨i, s, rfl, by omega⟩
      · have hfal : w.callbackFailed = false := by simpa using hf
        cases hp : w.preRelease with
        | none =>
            rw [assignLoop_cons_nocb spb g0 n w ws hfal hp] at he
            obtain ⟨i, s, rfl, hle⟩ :=
              ih (g0 + 1) (n + w.consumed spb) e he
            exact ⟨i, s, rfl, by omega⟩
        | some f =>
            by_cases hok : (f n).ok = true
            · rw [assignLoop_cons_cbok spb g0 n w ws hfal f hp hok] at he
              simp only [List.mem_cons] at he
              rcases he with rfl | he
              · exact ⟨g0, n, rfl, le_refl g0⟩
              · obtain ⟨i, s, rfl, hle⟩ :=
                  ih (g0 + 1) (n + w.consumed spb) e he
                exact ⟨i, s, rfl, by omega⟩
            · have hok2 : (f n).ok = false := by simpa using hok
              rw [assignLoop_cons_break spb g0 n w ws hfal f hp hok2] at he
              simp only [List.mem_singleton] at he
              exact ⟨g0, n, he, le_refl g0⟩

/-- Helper: `assignLoop`'s events are pairwise ordered (ascending group
indices, all in the pre-release phase). -/
theorem assignLoop_events_pairwise (spb : Bool) (ws : List Writer) :
    ∀ g0 n, ((assignLoop spb g0 n ws).2.1).Pairwise eventOrd := by
  induction ws with
  | nil => intro g0 n; simp [assignLoop]
  | cons w ws ih =>
      intro g0 n
      by_cases hf : w.callbackFailed = true
      · rw [assignLoop_cons_failed spb g0 n w ws hf]
        exact ih (g0 + 1) n
      · have hfal : w.callbackFailed = false := by simpa using hf
        cases hp : w.preRelease with
        | none =>
            rw [assignLoop_cons_nocb spb g0 n w ws hfal hp]
            exact ih (g0 + 1) (n + w.consumed spb)
        | some f =>
            by_cases hok : (f n).ok = true
            · rw [assignLoop_cons_cbok spb g0 n w ws hfal f hp hok]
              refine List.Pairwise.cons ?_ (ih (g0 + 1) (n + w.consumed spb))
              intro e he
              obtain ⟨i, s, rfl, hle⟩ :=
                assignLoop_events_shape spb ws (g0 + 1)
                  (n + w.consumed spb) e he
              show g0 < i
              omega
            · have hok2 : (f n).ok = false := by simpa using hok
              rw [assignLoop_cons_break spb g0 n w ws hfal f hp hok2]
              simp

/-- Helper: every pre-release event of `assignLoop` carries the sequence
the loop assigned to that writer. -/
theorem assignLoop_events_assigned (spb : Bool) (ws : List Writer) :
    ∀ g0 n i s, Event.preRelease i s ∈ (assignLoop spb g0 n ws).2.1 →
      g0 ≤ i ∧ (assignLoop spb g0 n ws).1[i - g0]? = some (some s) := by
  induction ws with
  | nil => intro g0 n i s h; simp [assignLoop] at h
  | cons w ws ih =>
      intro g0 n i s h
      by_cases hf : w.callbackFailed = true
      · rw [assignLoop_cons_failed spb g0 n w ws hf] at h ⊢
        obtain ⟨hle, hget⟩ := ih (g0 + 1) n i s h
        refine ⟨by omega, ?_⟩
        have hidx : i - g0 = (i - (g0 + 1)) + 1 := by omega
        rw [hidx]
        simp only [List.getElem?_cons_succ]
        exact hget
      · have hfal : w.callbackFailed = false := by simpa using hf
        cases hp : w.preRelease with
        | none =>
            rw [assignLoop_cons_nocb spb g0 n w ws hfal hp] at h ⊢
            obtain ⟨hle, hget⟩ := ih (g0 + 1) (n + w.consumed spb) i s h
            refine ⟨by omega, ?_⟩
            have hidx : i - g0 = (i - (g0 + 1)) + 1 := by omega
            rw [hidx]
            simp only [List.getElem?_cons_succ]
            exact hget
        | some f =>
            by_cases hok : (f n).ok = true
            · rw [assignLoop_cons_cbok spb g0 n w ws hfal f hp hok] at h ⊢
              simp only [List.mem_cons] at h
              rcases h with heq | h
              · obtain ⟨rfl, rfl⟩ :=
                  (Event.preRelease.injEq _ _ _ _).mp heq
                simp
              · obtain ⟨hle, hget⟩ := ih (g0 + 1) (n + w.consumed spb) i s h
                refine ⟨by omega, ?_⟩
                have hidx : i - g0 = (i - (g0 + 1)) + 1 := by omega
                rw [hidx]
                simp only [List.getElem?_cons_succ]
                exact hget
            · have hok2 : (f n).ok = false := by simpa using hok
              rw [assignLoop_cons_break spb g0 n w ws hfal f hp hok2] at h ⊢
              simp only [List.mem_singleton] at h
              obtain ⟨rfl, rfl⟩ := (Event.preRelease.injEq _ _ _ _).mp h
              simp

/-- Helper: memtable events are memtable applies. -/
theorem memApplyEvents_shape (g : List Writer) :
    ∀ e ∈ memApplyEvents g, ∃ i, e = Event.memtableApply i := by
  intro e he
  rw [memApplyEvents, List.mem_filterMap] at he
  obtain ⟨i, _, hf⟩ := he
  split at hf
  · split at hf
    · exact ⟨i, (Option.some.inj hf).symm⟩
    · simp at hf
  · simp at hf

/-- Helper: a list of memtable applies is pairwise ordered. -/
theorem pairwise_mem_events (l : List Event)
    (h : ∀ e ∈ l, ∃ i, e = Event.memtableApply i) :
    l.Pairwise eventOrd := by
  induction l with
  | nil => exact List.Pairwise.nil
  | cons a l ih =>
      refine List.Pairwise.cons ?_
        (ih fun e he => h e (List.mem_cons_of_mem _ he))
      intro b hb
      obtain ⟨i, rfl⟩ := h a (by simp)
      obtain ⟨j, rfl⟩ := h b (List.mem_cons_of_mem _ hb)
      show Event.phase _ ≤ Event.phase _
      simp [Event.phase]

/-- Helper: the default-path WAL events are WAL appends. -/
theorem dwWalEvents_shape (inp : DefaultInput) :
    ∀ e ∈ dwWalEvents inp, ∃ b, e = Event.walAppend b := by
  intro e he
  rw [dwWalEvents] at he
  split at he
  · simp only [List.mem_singleton] at he
    exact ⟨_, he⟩
  · simp at he

/-- Helper: the default-path pre-release events are pre-release
invocations. -/
theorem dwPreEvents_shape (inp : DefaultInput) :
    ∀ e ∈ dwPreEvents inp, ∃ i s, e = Event.preRelease i s := by
  intro e he
  rw [dwPreEvents, dwAssignTriple] at he
  split at he
  · obtain ⟨i, s, rfl, _⟩ :=
      assignLoop_events_shape inp.cfg.seqPerBatch inp.group 0
        (dwBase inp) e he
    exact ⟨i, s, rfl⟩
  · simp at he

/-- Helper: the default-path memtable events are memtable applies. -/
theorem dwMemEvents_shape (inp : DefaultInput) :
    ∀ e ∈ dwMemEvents inp, ∃ i, e = Event.memtableApply i := by
  intro e he
  rw [dwMemEvents] at he
  split at he
  · exact memApplyEvents_shape inp.group e he
  · simp at he

theorem dwPreEvents_pairwise (inp : DefaultInput) :
    (dwPreEvents inp).Pairwise eventOrd := by
  rw [dwPreEvents, dwAssignTriple]
  split
  · exact assignLoop_events_pairwise inp.cfg.seqPerBatch inp.group 0
      (dwBase inp)
  · simp

/-- Helper: the full default-path trace is phase- and group-ordered. -/
theorem dwEvents_pairwise (inp : DefaultInput) :
    (dwEvents inp).Pairwise eventOrd := by
  rw [dwEvents, List.pairwise_append]
  refine ⟨?_, pairwise_mem_events _ (dwMemEvents_shape inp), ?_⟩
  · rw [List.pairwise_append]
    refine ⟨?_, dwPreEvents_pairwise inp, ?_⟩
    · rw [dwWalEvents]
      split
      · simp
      · simp
    · intro a ha b hb
      obtain ⟨x, rfl⟩ := dwWalEvents_shape inp a ha
      obtain ⟨i, s, rfl⟩ := dwPreEvents_shape inp b hb
      show Event.phase _ ≤ Event.phase _
      simp [Event.phase]
  · intro a ha b hb
    obtain ⟨j, rfl⟩ := dwMemEvents_shape inp b hb
    rcases List.mem_append.1 ha with ha | ha
    · obtain ⟨x, rfl⟩ := dwWalEvents_shape inp a ha
      show Event.phase _ ≤ Event.phase _
      simp [Event.phase]
    · obtain ⟨i, s, rfl⟩ := dwPreEvents_shape inp a ha
      show Event.phase _ ≤ Event.phase _
      simp [Event.phase]

/-- Helper: every pre-release event of the default-path trace carries the
writer's assigned sequence. -/
theorem dwEvents_pre_assigned (inp : DefaultInput) (i s : Nat)
    (h : Event.preRelease i s ∈ dwEvents inp) :
    (dwAssigned inp)[i]? = some (some s) := by
  rw [dwEvents] at h
  rcases List.mem_append.1 h with h | h
  on_goal 2 =>
    obtain ⟨j, hj⟩ := dwMemEvents_shape inp _ h
    exact absurd hj (by simp)
  rcases List.mem_append.1 h with h | h
  · obtain ⟨b, hb⟩ := dwWalEvents_shape inp _ h
    exact absurd hb (by simp)
  · rw [dwPreEvents] at h
    rw [dwAssigned]
    by_cases hc : (dwStatus1 inp).ok = true
    · rw [dwAssignTriple, if_pos hc] at h ⊢
      have h2 := assignLoop_events_assigned inp.cfg.seqPerBatch inp.group 0
        (dwBase inp) i s h
      simpa using h2.2
    · rw [dwAssignTriple, if_neg hc] at h
      simp at h

/-- Helper: step equation of `woPreRelLoop` for a failed-callback head. -/
theorem woPreRelLoop_cons_failed (ao : Bool) (g0 c : Nat) (w : Writer)
    (ws : List Writer) (hf : w.callbackFailed = true) :
    woPreRelLoop ao g0 c (w :: ws) = woPreRelLoop ao (g0 + 1) c ws := by
  simp [woPreRelLoop, hf]

/-- Helper: step equation of `woPreRelLoop` for a clean head without a
pre-release callback. -/
theorem woPreRelLoop_cons_nocb (ao : Bool) (g0 c : Nat) (w : Writer)
    (ws : List Writer) (hf : w.callbackFailed = false)
    (hp : w.preRelease = none) :
    woPreRelLoop ao g0 c (w :: ws) =
      woPreRelLoop ao (g0 + 1) (c + if ao then w.batchCnt else 0) ws := by
  simp [woPreRelLoop, hf, hp]

/-- Helper: step equation of `woPreRelLoop` for a clean head with a
succeeding pre-release callback. -/
theorem woPreRelLoop_cons_cbok (ao : Bool) (g0 c : Nat) (w : Writer)
    (ws : List Writer) (hf : w.callbackFailed = false) (f : Nat → Status)
    (hp : w.preRelease = some f) (hok : (f c).ok = true) :
    woPreRelLoop ao g0 c (w :: ws) =
      ((woPreRelLoop ao (g0 + 1) (c + if ao then w.batchCnt else 0) ws).1,
        Event.preRelease g0 c ::
          (woPreRelLoop ao (g0 + 1)
            (c + if ao then w.batchCnt else 0) ws).2) := by
  simp [woPreRelLoop, hf, hp, hok]

/-- Helper: step equation of `woPreRelLoop` for a clean head with a
failing pre-release callback (the loop breaks). -/
theorem woPreRelLoop_cons_break (ao : Bool) (g0 c : Nat) (w : Writer)
    (ws : List Writer) (hf : w.callbackFailed = false) (f : Nat → Status)
    (hp : w.preRelease = some f) (hok : (f c).ok = false) :
    woPreRelLoop ao g0 c (w :: ws) = (f c, [Event.preRelease g0 c]) := by
  simp [woPreRelLoop, hf, hp, hok]

/-- Helper: step equation of `woAssignList` for a failed head. -/
theorem woAssignList_cons_failed (ao : Bool) (c : Nat) (w : Writer)
    (ws : List Writer) (hf : w.callbackFailed = true) :
    woAssignList ao c (w :: ws) = none :: woAssignList ao c ws := by
  simp [woAssignList, hf]

/-- Helper: step equation of `woAssignList` for a clean head. -/
theorem woAssignList_cons_ok (ao : Bool) (c : Nat) (w : Writer)
    (ws : List Writer) (hf : w.callbackFailed = false) :
    woAssignList ao c (w :: ws) =
      some c :: woAssignList ao (c + if ao then w.batchCnt else 0) ws := by
  simp [woAssignList, hf]

/-- Helper: WAL-only pre-release events are pre-release invocations with
group index at least the starting one. -/
theorem woPreRelLoop_shape (ao : Bool) (ws : List Writer) :
    ∀ g0 c, ∀ e ∈ (woPreRelLoop ao g0 c ws).2,
      ∃ i s, e = Event.preRelease i s ∧ g0 ≤ i := by
  induction ws with
  | nil => intro g0 c e he; simp [woPreRelLoop] at he
  | cons w ws ih =>
      intro g0 c e he
      by_cases hf : w.callbackFailed = true
      · rw [woPreRelLoop_cons_failed ao g0 c w ws hf] at he
        obtain ⟨i, s, rfl, hle⟩ := ih (g0 + 1) c e he
        exact ⟨i, s, rfl, by omega⟩
      · have hfal : w.callbackFailed = false := by simpa using hf
        cases hp : w.preRelease with
        | none =>
            rw [woPreRelLoop_cons_nocb ao g0 c w ws hfal hp] at he
            obtain ⟨i, s, rfl, hle⟩ := ih (g0 + 1) _ e he
            exact ⟨i, s, rfl, by omega⟩
        | some f =>
            by_cases hok : (f c).ok = true
            · rw [woPreRelLoop_cons_cbok ao g0 c w ws hfal f hp hok] at he
              simp only [List.mem_cons] at he
              rcases he with rfl | he
              · exact ⟨g0, c, rfl, le_refl g0⟩
              · obtain ⟨i, s, rfl, hle⟩ := ih (g0 + 1) _ e he
                exact ⟨i, s, rfl, by omega⟩
            · have hok2 : (f c).ok = false := by simpa using hok
              rw [woPreRelLoop_cons_break ao g0 c w ws hfal f hp hok2] at he
              simp only [List.mem_singleton] at he
              exact ⟨g0, c, he, le_refl g0⟩

/-- Helper: WAL-only pre-release events are pairwise ordered. -/
theorem woPreRelLoop_pairwise (ao : Bool) (ws : List Writer) :
    ∀ g0 c, ((woPreRelLoop ao g0 c ws).2).Pairwise eventOrd := by
  induction ws with
  | nil => intro g0 c; simp [woPreRelLoop]
  | cons w ws ih =>
      intro g0 c
      by_cases hf : w.callbackFailed = true
      · rw [woPreRelLoop_cons_failed ao g0 c w ws hf]
        exact ih (g0 + 1) c
      · have hfal : w.callbackFailed = false := by simpa using hf
        cases hp : w.preRelease with
        | none =>
            rw [woPreRelLoop_cons_nocb ao g0 c w ws hfal hp]
            exact ih (g0 + 1) _
        | some f =>
            by_cases hok : (f c).ok = true
            · rw [woPreRelLoop_cons_cbok ao g0 c w ws hfal f hp hok]
              refine List.Pairwise.cons ?_ (ih (g0 + 1) _)
              intro e he
              obtain ⟨i, s, rfl, hle⟩ := woPreRelLoop_shape ao ws (g0 + 1) _ e he
              show g0 < i
              omega
            · have hok2 : (f c).ok = false := by simpa using hok
              rw [woPreRelLoop_cons_break ao g0 c w ws hfal f hp hok2]
              simp

/-- Helper: each WAL-only pre-release event carries the sequence
`woAssignList` assigned to that writer. -/
theorem woPreRelLoop_assigned (ao : Bool) (ws : List Writer) :
    ∀ g0 c i s, Event.preRelease i s ∈ (woPreRelLoop ao g0 c ws).2 →
      g0 ≤ i ∧ (woAssignList ao c ws)[i - g0]? = some (some s) := by
  induction ws with
  | nil => intro g0 c i s h; simp [woPreRelLoop] at h
  | cons w ws ih =>
      intro g0 c i s h
      by_cases hf : w.callbackFailed = true
      · rw [woPreRelLoop_cons_failed ao g0 c w ws hf] at h
        rw [woAssignList_cons_failed ao c w ws hf]
        obtain ⟨hle, hget⟩ := ih (g0 + 1) c i s h
        refine ⟨by omega, ?_⟩
        have hidx : i - g0 = (i - (g0 + 1)) + 1 := by omega
        rw [hidx]
        simp only [List.getElem?_cons_succ]
        exact hget
      · have hfal : w.callbackFailed = false := by simpa using hf
        rw [woAssignList_cons_ok ao c w ws hfal]
        cases hp : w.preRelease with
        | none =>
            rw [woPreRelLoop_cons_nocb ao g0 c w ws hfal hp] at h
            obtain ⟨hle, hget⟩ := ih (g0 + 1) _ i s h
            refine ⟨by omega, ?_⟩
            have hidx : i - g0 = (i - (g0 + 1)) + 1 := by omega
            rw [hidx]
            simp only [List.getElem?_cons_succ]
            exact hget
        | some f =>
            by_cases hok : (f c).ok = true
            · rw [woPreRelLoop_cons_cbok ao g0 c w ws hfal f hp hok] at h
              simp only [List.mem_cons] at h
              rcases h with heq | h
              · obtain ⟨rfl, rfl⟩ :=
                  (Event.preRelease.injEq _ _ _ _).mp heq
                simp
              · obtain ⟨hle, hget⟩ := ih (g0 + 1) _ i s h
                refine ⟨by omega, ?_⟩
                have hidx : i - g0 = (i - (g0 + 1)) + 1 := by omega
                rw [hidx]
                simp only [List.getElem?_cons_succ]
                exact hget
            · have hok2 : (f c).ok = false := by simpa using hok
              rw [woPreRelLoop_cons_break ao g0 c w ws hfal f hp hok2] at h
              simp only [List.mem_singleton] at h
              obtain ⟨rfl, rfl⟩ := (Event.preRelease.injEq _ _ _ _).mp h
              simp

/-- Helper: the WAL-only WAL events are WAL appends. -/
theorem woWalEvents_shape (inp : WalOnlyInput) :
    ∀ e ∈ woWalEvents inp, ∃ b, e = Event.walAppend b := by
  intro e he
  rw [woWalEvents] at he
  split at he
  · simp at he
  · split at he
    · simp only [List.mem_singleton] at he
      exact ⟨_, he⟩
    · simp at he

/-- Helper: the WAL-only pre-release events are pre-release invocations. -/
theorem woPreEvents_shape (inp : WalOnlyInput) :
    ∀ e ∈ woPreEvents inp, ∃ i s, e = Event.preRelease i s := by
  intro e he
  rw [woPreEvents, woPreRelPair] at he
  split at he
  · simp at he
  · split at he
    · obtain ⟨i, s, rfl, _⟩ :=
        woPreRelLoop_shape inp.assignOrder inp.group 0
          (inp.lastAlloc0 + 1) e he
      exact ⟨i, s, rfl⟩
    · simp at he

theorem woPreEvents_pairwise (inp : WalOnlyInput) :
    (woPreEvents inp).Pairwise eventOrd := by
  rw [woPreEvents, woPreRelPair]
  split
  · simp
  · split
    · exact woPreRelLoop_pairwise inp.assignOrder inp.group 0
        (inp.lastAlloc0 + 1)
    · simp

/-- Helper: the memtable part of the unordered trace. -/
theorem unorderedMem_shape (inp : WalOnlyInput) :
    ∀ e ∈ (if (walOnlyWrite inp).status.ok then memApplyEvents inp.group
      else []), ∃ i, e = Event.memtableApply i := by
  intro e he
  split at he
  · exact memApplyEvents_shape inp.group e he
  · simp at he

/-- Helper: the unordered-write trace (WAL append, then pre-release
callbacks, then the writers' own memtable applies) is phase- and
group-ordered. -/
theorem unorderedTrace_pairwise (inp : WalOnlyInput) :
    (unorderedTrace inp).Pairwise eventOrd := by
  rw [unorderedTrace, woEvents, List.append_assoc, List.pairwise_append]
  refine ⟨?_, ?_, ?_⟩
  · rw [woWalEvents]
    split
    · simp
    · split
      · simp
      · simp
  · rw [List.pairwise_append]
    refine ⟨woPreEvents_pairwise inp,
      pairwise_mem_events _ (unorderedMem_shape inp), ?_⟩
    intro a ha b hb
    obtain ⟨i, s, rfl⟩ := woPreEvents_shape inp a ha
    obtain ⟨j, rfl⟩ := unorderedMem_shape inp b hb
    show Event.phase _ ≤ Event.phase _
    simp [Event.phase]
  · intro a ha b hb
    obtain ⟨x, rfl⟩ := woWalEvents_shape inp a ha
    rcases List.mem_append.1 hb with hb | hb
    · obtain ⟨i, s, rfl⟩ := woPreEvents_shape inp b hb
      show Event.phase _ ≤ Event.phase _
      simp [Event.phase]
    · obtain ⟨j, rfl⟩ := unorderedMem_shape inp b hb
      show Event.phase _ ≤ Event.phase _
      simp [Event.phase]

/-- Helper: each pre-release event of the unordered trace carries the
writer's assigned sequence. -/
theorem unorderedTrace_pre_assigned (inp : WalOnlyInput) (i s : Nat)
    (h : Event.preRelease i s ∈ unorderedTrace inp) :
    (walOnlyWrite inp).assigned[i]? = some (some s) := by
  rw [unorderedTrace] at h
  rcases List.mem_append.1 h with h | h
  on_goal 2 =>
    split at h
    · obtain ⟨j, hj⟩ := memApplyEvents_shape inp.group _ h
      exact absurd hj (by simp)
    · simp at h
  rw [woEvents] at h
  rcases List.mem_append.1 h with h | h
  · obtain ⟨b, hb⟩ := woWalEvents_shape inp _ h
    exact absurd hb (by simp)
  · show (woAssigned inp)[i]? = some (some s)
    rw [woPreEvents, woPreRelPair] at h
    rw [woAssigned]
    split at h
    · simp at h
    · rename_i hne
      rw [if_neg hne]
      split at h
      · have h2 := woPreRelLoop_assigned inp.assignOrder inp.group 0
          (inp.lastAlloc0 + 1) i s h
        simpa using h2.2
      · simp at h

/-- Claim C2: in the default and WAL-only paths, the trace of every write
group is phase-ordered — every WAL append precedes every pre-release
callback, which precedes every memtable apply — pre-release callbacks fire
in group order, and each pre-release callback receives the sequence
assigned to its writer. -/
theorem claim_C2 :
    (∀ inp : DefaultInput,
      (defaultWrite inp).events.Pairwise eventOrd ∧
      ∀ i s, Event.preRelease i s ∈ (defaultWrite inp).events →
        (defaultWrite inp).assigned[i]? = some (some s)) ∧
    (∀ inp : WalOnlyInput,
      (unorderedTrace inp).Pairwise eventOrd ∧
      ∀ i s, Event.preRelease i s ∈ unorderedTrace inp →
        (walOnlyWrite inp).assigned[i]? = some (some s)) := by
  constructor
  · intro inp
    exact ⟨dwEvents_pairwise inp,
      fun i s h => dwEvents_pre_assigned inp i s h⟩
  · intro inp
    exact ⟨unorderedTrace_pairwise inp,
      fun i s h => unorderedTrace_pre_assigned inp i s h⟩

/-- Claim C2 witness: a concrete pre-release event in each path, carrying
the assigned sequence. -/
theorem claim_C2_witness :
    (Event.preRelease 0 1 ∈ (defaultWrite inpC2w).events ∧
      (defaultWrite inpC2w).assigned[0]? = some (some 1)) ∧
    (Event.preRelease 0 1 ∈ unorderedTrace inpC2wo ∧
      (walOnlyWrite inpC2wo).assigned[0]? = some (some 1)) :=
  ⟨⟨by decide, (claim_C2.1 inpC2w).2 0 1 (by decide)⟩,
    ⟨by decide, (claim_C2.2 inpC2wo).2 0 1 (by decide)⟩⟩

/-- Claim C10: with `disable_wal` set, both the two-queue default path and
the WAL-only path still advance the last-allocated sequence counter by the
group's sequence increment, even though no WAL append happens. -/
theorem claim_C10 (dinp : DefaultInput) (winp : WalOnlyInput)
    (h1 : dinp.cfg.twoWriteQueues = true)
    (h2 : dinp.opts.disableWAL = true)
    (h3 : dinp.preStatus.ok = true)
    (h4 : winp.opts.disableWAL = true)
    (h5 : woEarlyExit winp = false) :
    ((defaultWrite dinp).lastAllocated =
        dinp.lastAlloc0 + groupSeqInc dinp.cfg.seqPerBatch dinp.group ∧
      (defaultWrite dinp).events.all (fun e => !e.isWal) = true) ∧
    ((walOnlyWrite winp).lastAllocated = winp.lastAlloc0 + woInc winp ∧
      (walOnlyWrite winp).events.all (fun e => !e.isWal) = true) := by
  refine ⟨⟨?_, ?_⟩, ⟨?_, ?_⟩⟩
  · show dwLastAlloc dinp = _
    simp [dwLastAlloc, h1, h3, dwInc]
  · rw [List.all_eq_true]
    intro e he
    rw [show (defaultWrite dinp).events = dwEvents dinp from rfl,
      dwEvents] at he
    rcases List.mem_append.1 he with he | he
    · rcases List.mem_append.1 he with he | he
      · rw [dwWalEvents, if_neg (by simp [h2])] at he
        simp at he
      · obtain ⟨i, s, rfl⟩ := dwPreEvents_shape dinp e he
        rfl
    · obtain ⟨j, rfl⟩ := dwMemEvents_shape dinp e he
      rfl
  · show woLastAlloc winp = _
    rw [woLastAlloc, if_neg (by simp [h5])]
  · rw [List.all_eq_true]
    intro e he
    rw [show (walOnlyWrite winp).events = woEvents winp from rfl,
      woEvents] at he
    rcases List.mem_append.1 he with he | he
    · rw [woWalEvents, if_neg (by simp [h5]), if_neg (by simp [h4])] at he
      simp at he
    · obtain ⟨i, s, rfl⟩ := woPreEvents_shape winp e he
      rfl

/-- Claim C10 witness: a two-writer `disable_wal` group through each
path. -/
theorem claim_C10_witness :
    (inpC10d.cfg.twoWriteQueues = true ∧ inpC10d.opts.disableWAL = true ∧
      inpC10d.preStatus.ok = true ∧ inpC10w.opts.disableWAL = true ∧
      woEarlyExit inpC10w = false) ∧
    (((defaultWrite inpC10d).lastAllocated =
        inpC10d.lastAlloc0 +
          groupSeqInc inpC10d.cfg.seqPerBatch inpC10d.group ∧
      (defaultWrite inpC10d).events.all (fun e => !e.isWal) = true) ∧
    ((walOnlyWrite inpC10w).lastAllocated =
        inpC10w.lastAlloc0 + woInc inpC10w ∧
      (walOnlyWrite inpC10w).events.all (fun e => !e.isWal) = true)) :=
  ⟨⟨rfl, rfl, by decide, rfl, by decide⟩,
    claim_C10 inpC10d inpC10w rfl rfl (by decide) rfl (by decide)⟩

/-- Helper: the sleep loop, given enough fuel, stops only when the
controller no longer needs a delay or the deadline has passed. -/
theorem sleepLoop_exit (needs : Nat → Bool) (delay : Nat) :
    ∀ fuel k, delay ≤ 1000 * k + 1000 * fuel →
      needs (sleepLoop needs delay fuel k) = false ∨
        delay ≤ 1000 * sleepLoop needs delay fuel k := by
  intro fuel
  induction fuel with
  | zero =>
      intro k h
      right
      have h0 : sleepLoop needs delay 0 k = k := rfl
      rw [h0]
      omega
  | succ m ih =>
      intro k h
      by_cases hn : needs k = true
      · by_cases hd : delay ≤ 1000 * k
        · have hs : sleepLoop needs delay (m + 1) k = k := by
            simp [sleepLoop, hn, hd]
          rw [hs]
          right
          exact hd
        · have hs : sleepLoop needs delay (m + 1) k =
              sleepLoop needs delay m (k + 1) := by
            simp [sleepLoop, hn, hd]
          rw [hs]
          exact ih (k + 1) (by omega)
      · have hn2 : needs k = false := by simpa using hn
        have hs : sleepLoop needs delay (m + 1) k = k := by
          simp [sleepLoop, hn2]
        rw [hs]
        left
        exact hn2

theorem sleepTicks_exit (needs : Nat → Bool) (delay : Nat) :
    needs (sleepTicks needs delay) = false ∨
      delay ≤ 1000 * sleepTicks needs delay := by
  rw [sleepTicks]
  exact sleepLoop_exit needs delay delay 0 (by omega)

/-- Helper: a `no_slowdown` writer never waits in the condvar loop. -/
theorem cvLoop_true_waits (l : List BGView) : (cvLoop true l).2 = 0 := by
  cases l with
  | nil => rfl
  | cons v rest =>
      by_cases hc : (v.bgOk && v.stopped) = true <;> simp [cvLoop, hc]

theorem cvLoop_true_head_sat (v : BGView) (rest : List BGView)
    (hc : (v.bgOk && v.stopped) = true) :
    cvLoop true (v :: rest) = (some (), 0) := by
  simp [cvLoop, hc]

theorem cvLoop_true_head_unsat (v : BGView) (rest : List BGView)
    (hc : (v.bgOk && v.stopped) = false) :
    cvLoop true (v :: rest) = (none, 0) := by
  simp [cvLoop, hc]

/-- Helper: a blocking writer waits exactly while the background error is
OK and the controller is stopped, and never returns from inside the
loop. -/
theorem cvLoop_false (l : List BGView) :
    (cvLoop false l).1 = none ∧
    (cvLoop false l).2 =
      (l.takeWhile fun v => v.bgOk && v.stopped).length := by
  induction l with
  | nil => exact ⟨rfl, rfl⟩
  | cons v rest ih =>
      by_cases hc : (v.bgOk && v.stopped) = true
      · refine ⟨?_, ?_⟩
        · simp [cvLoop, hc, ih.1]
        · simp [cvLoop, hc, ih.2, List.takeWhile_cons]
      · refine ⟨?_, ?_⟩
        · simp [cvLoop, hc]
        · simp [cvLoop, hc, List.takeWhile_cons]

/-- Helper: the `no_slowdown` fast-fail branch of `DelayWrite`. -/
theorem delayWriteM_fast (inp : DelayInput) (hd : 0 < inp.delay)
    (hns : inp.noSlowdown = true) :
    delayWriteM inp = ⟨Status.incomplete "Write stall", 0, 0⟩ := by
  simp [delayWriteM, hd, hns]

/-- Claim C5 counterexample: a `no_slowdown` write reaching delay-write
with the controller stopped and a background error already set fails
immediately (no sleep, no wait) but with `Incomplete` carrying the
background error's description — not `Incomplete("Write stall")`. -/
theorem claim_C5_counterexample :
    (delayWriteM inpC5ce).status ≠ Status.incomplete "Write stall" ∧
    (delayWriteM inpC5ce).status.code = StatusCode.Incomplete ∧
    (delayWriteM inpC5ce).sleeps = 0 ∧
    (delayWriteM inpC5ce).waits = 0 ∧
    inpC5ce.noSlowdown = true ∧
    (inpC5ce.waitStates.map BGView.stopped) = [true] ∧
    inpC5ce.exitView.stopped = true := by
  refine ⟨by decide, rfl, rfl, rfl, rfl, rfl, rfl⟩

/-- Claim C5 (amended): a `no_slowdown` write that reaches delay-write
never sleeps nor waits; it fails with `Incomplete("Write stall")` when a
positive delay was computed or the controller is stopped with no
background error set, and with `Incomplete` carrying the background
error's description when the controller is stopped and a background error
is already set.  A write without `no_slowdown` sleeps in 1 ms ticks until
the controller no longer needs a delay or the computed deadline expires,
and waits on the background condvar exactly while the controller is fully
stopped and no background error is set. -/
theorem claim_C5_amended (inp : DelayInput) :
    (inp.noSlowdown = true →
      (delayWriteM inp).sleeps = 0 ∧ (delayWriteM inp).waits = 0) ∧
    (inp.noSlowdown = true →
      (0 < inp.delay ∨ (∃ v, inp.waitStates.head? = some v ∧
        v.bgOk = true ∧ v.stopped = true)) →
      (delayWriteM inp).status = Status.incomplete "Write stall") ∧
    (inp.noSlowdown = true → inp.delay = 0 →
      (∀ v, inp.waitStates.head? = some v → v.bgOk = false) →
      inp.exitView.stopped = true → inp.dbStopped = false →
      (delayWriteM inp).status = Status.incomplete inp.bgErr.describe) ∧
    (inp.noSlowdown = false →
      ((delayWriteM inp).sleeps =
        (if 0 < inp.delay then sleepTicks inp.needsDelay inp.delay
          else 0) ∧
      (inp.needsDelay (delayWriteM inp).sleeps = false ∨
        inp.delay ≤ 1000 * (delayWriteM inp).sleeps) ∧
      (delayWriteM inp).waits =
        (inp.waitStates.takeWhile fun v => v.bgOk && v.stopped).length)) := by
  refine ⟨?_, ?_, ?_, ?_⟩
  · intro hns
    by_cases hd : 0 < inp.delay
    · rw [delayWriteM_fast inp hd hns]
      exact ⟨rfl, rfl⟩
    · have hr : (cvLoop true inp.waitStates).2 = 0 :=
        cvLoop_true_waits inp.waitStates
      by_cases ho : (cvLoop true inp.waitStates).1.isSome = true
      · constructor <;> simp [delayWriteM, hd, hns, ho, hr]
      · constructor <;> simp [delayWriteM, hd, hns, ho, hr]
  · intro hns h
    rcases h with hd | ⟨v, hv, hb, hs2⟩
    · rw [delayWriteM_fast inp hd hns]
    · by_cases hd : 0 < inp.delay
      · rw [delayWriteM_fast inp hd hns]
      · cases l : inp.waitStates with
        | nil => rw [l] at hv; simp at hv
        | cons v0 rest =>
            rw [l] at hv
            have hv0 : v0 = v := by simpa using hv
            subst hv0
            have hcv : cvLoop true inp.waitStates = (some (), 0) := by
              rw [l]
              exact cvLoop_true_head_sat v0 rest (by simp [hb, hs2])
            simp [delayWriteM, hd, hns, hcv]
  · intro hns hd hhead hstop hdb
    have hcv : cvLoop true inp.waitStates = (none, 0) := by
      cases l : inp.waitStates with
      | nil => rfl
      | cons v0 rest =>
          have hb := hhead v0 (by rw [l]; rfl)
          exact cvLoop_true_head_unsat v0 rest (by simp [hb])
    simp [delayWriteM, hd, hns, hcv, hstop, hdb]
  · intro hns
    have ho : (cvLoop false inp.waitStates).1.isSome = false := by
      simp [(cvLoop_false inp.waitStates).1]
    have hsl : (delayWriteM inp).sleeps =
        (if 0 < inp.delay then sleepTicks inp.needsDelay inp.delay
          else 0) := by
      by_cases hd : 0 < inp.delay <;> simp [delayWriteM, hns, ho, hd]
    refine ⟨hsl, ?_, ?_⟩
    · rw [hsl]
      by_cases hd : 0 < inp.delay
      · rw [if_pos hd]
        exact sleepTicks_exit inp.needsDelay inp.delay
      · rw [if_neg hd]
        right
        omega
    · have hw := (cvLoop_false inp.waitStates).2
      by_cases hd : 0 < inp.delay <;>
        simp [delayWriteM, hns, ho, hd, hw]

/-- Claim C5 witness: the fast-fail branch for a `no_slowdown` writer
facing a 5 ms delay, and the sleep/wait accounting for a blocking writer
under a 2.5 ms delay and a two-check stall. -/
theorem claim_C5_witness :
    (inpC5w.noSlowdown = true ∧ 0 < inpC5w.delay) ∧
    ((delayWriteM inpC5w).status = Status.incomplete "Write stall") ∧
    (inpC5w2.noSlowdown = false ∧
      ((delayWriteM inpC5w2).sleeps =
        (if 0 < inpC5w2.delay then
          sleepTicks inpC5w2.needsDelay inpC5w2.delay else 0) ∧
      (inpC5w2.needsDelay (delayWriteM inpC5w2).sleeps = false ∨
        inpC5w2.delay ≤ 1000 * (delayWriteM inpC5w2).sleeps) ∧
      (delayWriteM inpC5w2).waits =
        (inpC5w2.waitStates.takeWhile
          fun v => v.bgOk && v.stopped).length)) :=
  ⟨⟨rfl, by decide⟩,
    (claim_C5_amended inpC5w).2.1 rfl (Or.inl (by decide)),
    ⟨rfl, (claim_C5_amended inpC5w2).2.2.2 rfl⟩⟩

end RocksDBWrite
